import Mathlib

/-!
Shallow embedding of the Granola document cache and search engine
(`cache-parser.ts`, the document-cache and search modules, and the
date-parser module) together with proofs about its behaviour.

Modelling conventions:
* JSON values are modelled by the inductive `Json`; numbers are modelled
  as integers (no claim depends on non-integral numbers).
* Instants are epoch milliseconds (`Int`); the process is modelled as
  running with a UTC local timezone, so `setHours(23,59,59,999)` and
  `toISOString().split('T')[0]` are both UTC calendar-day operations.
* Relevance scores (IEEE doubles in the source) are modelled as `ℚ`.
* JavaScript `Map` objects are association lists with `Map.set` replacing
  in place, and `Set` objects are duplicate-free lists in insertion order.
* The JavaScript built-in `new Date(string).getTime()` and the
  `parseRelativeDate` routine (whose body is local-timezone calendar
  arithmetic over that built-in) are abstracted as fields of a `JsEnv`
  environment; every theorem quantifies over that environment.
-/

namespace Granola

/-- JSON values as produced by `JSON.parse` (numbers as integers). -/
inductive Json where
  | null
  | bool (b : Bool)
  | num (n : Int)
  | str (s : String)
  | arr (elems : List Json)
  | obj (fields : List (String × Json))

/-- JavaScript truthiness of a JSON value. -/
def Json.truthy : Json → Bool
  | .null => false
  | .bool b => b
  | .num n => n != 0
  | .str s => s != ""
  | .arr _ => true
  | .obj _ => true

/-- Model of `typeof v === 'object'` (true for objects, arrays and `null`). -/
def Json.isObjectType : Json → Bool
  | .null => true
  | .arr _ => true
  | .obj _ => true
  | _ => false

/-- Model of `Array.isArray`. -/
def Json.isArray : Json → Bool
  | .arr _ => true
  | _ => false

/-- Property access `v.name`: a value for object fields, otherwise
`undefined` (`none`).  (Access on `null` — which throws in JavaScript —
is handled separately where the source can reach it.) -/
def Json.getField : Json → String → Option Json
  | .obj fields, name => (fields.find? (fun p => p.1 = name)).map (fun p => p.2)
  | _, _ => none

/-- JavaScript `a || b` on possibly-`undefined` values. -/
def jsOr (a b : Option Json) : Option Json :=
  match a with
  | some v => if v.truthy then some v else b
  | none => b

/-- JavaScript `a || b || c`. -/
def jsOr3 (a b c : Option Json) : Option Json :=
  jsOr a (jsOr b c)

/-- Truthiness of a possibly-`undefined` value. -/
def truthyOpt (a : Option Json) : Bool :=
  match a with
  | some v => v.truthy
  | none => false

/-- Model of `Map` key equality (SameValueZero): structural on primitives; two
object or array keys are distinct references in the source (each parsed
entry is a fresh object), so they never compare equal. -/
def jsKeyEq : Json → Json → Bool
  | .null, .null => true
  | .bool a, .bool b => a == b
  | .num a, .num b => a == b
  | .str a, .str b => a == b
  | _, _ => false

/-- Association-list model of `Map.get` (string keys). -/
def mapGet {β : Type} (m : List (String × β)) (k : String) : Option β :=
  (m.find? (fun p => p.1 = k)).map (fun p => p.2)

/-- Association-list model of `Map.set` (string keys): replace in place,
else append. -/
def mapSet {β : Type} (m : List (String × β)) (k : String) (v : β) :
    List (String × β) :=
  if m.any (fun p => p.1 = k) then
    m.map (fun p => if p.1 = k then (k, v) else p)
  else
    m ++ [(k, v)]

/-- One attendee extracted from a cache entry (`CacheAttendee`). -/
structure CacheAttendee where
  email : Option Json
  displayName : Option Json
  organizer : Json
  responseStatus : Option Json

/-- One conference entry point (`{ uri?, entryPointType? }`). -/
structure EntryPoint where
  uri : Option Json
  entryPointType : Option Json

/-- One meeting extracted from the cache file (`CacheMeeting`).
`conferenceData` is `some eps` when the source sets
`meeting.conferenceData = { entryPoints: eps }`. -/
structure CacheMeeting where
  id : Json
  attendees : Option (List CacheAttendee)
  conferenceData : Option (List EntryPoint)
  calendarId : Option Json

/-- The mapping built by `parseCacheFile` (a `Map` keyed by the raw id value). -/
abbrev CacheMap : Type := List (Json × CacheMeeting)

/-- Model of `Map.get` on the cache map (SameValueZero key comparison). -/
def cacheGet (m : CacheMap) (k : Json) : Option CacheMeeting :=
  (m.find? (fun p => jsKeyEq p.1 k)).map (fun p => p.2)

/-- Model of `Map.set` on the cache map: replace in place, else append. -/
def cacheSet (m : CacheMap) (k : Json) (v : CacheMeeting) : CacheMap :=
  if m.any (fun p => jsKeyEq p.1 k) then
    m.map (fun p => if jsKeyEq p.1 k then (k, v) else p)
  else
    m ++ [(k, v)]

/-- Attendee conversion inside `extractMeetingInfo`. -/
def toCacheAttendee (a : Json) : CacheAttendee :=
  { email := jsOr (a.getField "email") (a.getField "emailAddress")
  , displayName := jsOr3 (a.getField "displayName") (a.getField "name") (a.getField "full_name")
  , organizer := (jsOr3 (a.getField "organizer") (a.getField "isOrganizer")
      (some (.bool false))).getD (.bool false)
  , responseStatus := jsOr (a.getField "responseStatus") (a.getField "status") }

/-- Entry-point conversion inside `extractMeetingInfo`.  Property access
`ep.uri` on a `null` element throws a `TypeError` in the source, modelled
as `.error ()`. -/
def toEntryPoint : Json → Except Unit EntryPoint
  | .null => .error ()
  | ep => .ok
      { uri := jsOr3 (ep.getField "uri") (ep.getField "url") (ep.getField "link")
      , entryPointType := jsOr (ep.getField "entryPointType") (ep.getField "type") }

/-- The id aliases tried by `extractMeetingInfo`. -/
def idAlias (entry : Json) : Option Json :=
  jsOr (entry.getField "id") (jsOr (entry.getField "document_id")
    (jsOr (entry.getField "documentId") (entry.getField "meeting_id")))

/-- Model of `extractMeetingInfo(entry, meetings)`: either the updated map, or
`.error ()` when the entry raises a `TypeError` (a `null` entry point). -/
def extractMeetingInfo (entry : Json) (meetings : CacheMap) : Except Unit CacheMap :=
  if ¬ (entry.truthy && entry.isObjectType) then .ok meetings else
  let id? := idAlias entry
  if ¬ truthyOpt id? then .ok meetings else
  let id := id?.getD .null
  let attendeesList := jsOr3 (entry.getField "attendees") (entry.getField "participants")
    (entry.getField "invitees")
  let attendees : Option (List CacheAttendee) :=
    match attendeesList with
    | some (.arr l) =>
        some ((l.filter (fun a => a.truthy && a.isObjectType)).map toCacheAttendee)
    | _ => none
  let confData := jsOr3 (entry.getField "conferenceData") (entry.getField "conference")
    (entry.getField "meetingInfo")
  let conf : Except Unit (Option (List EntryPoint)) :=
    match confData with
    | some cd =>
        if cd.truthy && cd.isObjectType then
          match jsOr3 (cd.getField "entryPoints") (cd.getField "urls") (cd.getField "links") with
          | some (.arr l) => (l.mapM toEntryPoint).map (fun eps => some eps)
          | _ => .ok (some [])
        else .ok none
    | none => .ok none
  match conf with
  | .error e => .error e
  | .ok conferenceData =>
      let calendarId := jsOr (entry.getField "calendarId") (entry.getField "calendar_id")
      .ok (cacheSet meetings id
        { id := id, attendees := attendees, conferenceData := conferenceData,
          calendarId := calendarId })

/-- The entry loop of `parseCacheFile`: a thrown `TypeError` escapes the
loop and is caught by the surrounding `try`, which returns the map
accumulated so far. -/
def runEntries : List Json → CacheMap → CacheMap
  | [], m => m
  | e :: rest, m =>
      match extractMeetingInfo e m with
      | .ok m2 => runEntries rest m2
      | .error _ => m

/-- The possible states of the cache file as seen by `parseCacheFile`:
absent (or unreadable), present but not valid JSON, or parsed content. -/
inductive CacheFileInput where
  | absent
  | invalid
  | content (j : Json)

/-- Model of `parseCacheFile`: produce the id-to-meeting mapping; every failure
path returns the mapping accumulated so far (never throws to the caller). -/
def parseCacheFile : CacheFileInput → CacheMap
  | .absent => []
  | .invalid => []
  | .content cacheData =>
      if cacheData.truthy && cacheData.isObjectType then
        let meetingData := (jsOr3 (cacheData.getField "meetings") (cacheData.getField "events")
          (jsOr (cacheData.getField "documents") (some cacheData))).getD cacheData
        match meetingData with
        | .arr entries => runEntries entries []
        | .obj fields =>
            runEntries ((fields.map (fun p => p.2)).filter
              (fun v => v.truthy && v.isObjectType)) []
        | _ => []
      else []

/-- Model of `getMeetingFromCache(documentId, cache)`. -/
def getMeetingFromCache (documentId : String) (cache : CacheMap) : Option CacheMeeting :=
  cacheGet cache (.str documentId)

/-- One folder membership (`{ id, name }`). -/
structure Folder where
  id : String
  name : String
deriving DecidableEq, Repr

/-- The per-document `metadata.json` record (`Metadata`).  Optional
string fields are `Option String`; an empty string is falsy in the
source's truthiness tests. -/
structure Metadata where
  document_id : String
  title : String
  created_at : String
  updated_at : String
  workspace_id : Option String
  workspace_name : Option String
  folders : List Folder
  meeting_date : Option String
  sources : List String
deriving DecidableEq, Repr

/-- One attendee on an enriched document. -/
structure Attendee where
  email : Option Json
  name : Option Json
  organizer : Json
  responseStatus : Option Json

/-- Conference info on an enriched document (`{ url, platform }`). -/
structure Conference where
  url : Option Json
  platform : Option Json

/-- The enrichment sub-record of a document (`meeting_metadata`). -/
structure MeetingMetadata where
  attendees : List Attendee
  conference : Option Conference
  calendarId : Option Json

/-- Model of `EnrichedDocument` as constructed by the document cache. -/
structure EnrichedDocument where
  id : String
  title : String
  created_at : String
  updated_at : String
  workspace_id : Option String
  meeting_metadata : MeetingMetadata

/-- A transcript utterance (`Utterance`). -/
structure Utterance where
  source : String
  text : String
  start_timestamp : String
  end_timestamp : String
  confidence : Option Int
deriving DecidableEq, Repr

/-- An index: normalized key to the set of document ids holding it,
in insertion order (`Map<key, Set<string>>`). -/
abbrev Index (κ : Type) : Type := List (κ × List String)

/-- Add a document id to the set stored under a key (`Map.get`/`Set.add`). -/
def indexAdd {κ : Type} [DecidableEq κ] : Index κ → κ → String → Index κ
  | [], key, docId => [(key, [docId])]
  | (k, ids) :: rest, key, docId =>
      if k = key then
        (k, if docId ∈ ids then ids else ids ++ [docId]) :: rest
      else
        (k, ids) :: indexAdd rest key docId

/-- The set of document ids stored under a key (empty when absent). -/
def indexGet {κ : Type} [DecidableEq κ] : Index κ → κ → List String
  | [], _ => []
  | (k, ids) :: rest, key => if k = key then ids else indexGet rest key

/-- Add a document id under each key of a list in order. -/
def addMany {κ : Type} [DecidableEq κ] (idx : Index κ) (docId : String)
    (keys : List κ) : Index κ :=
  keys.foldl (fun i k => indexAdd i k docId) idx

/-- The five search indexes of the document cache. -/
structure Indexes where
  attendeeIndex : Index String
  dateIndex : Index Int
  workspaceIndex : Index String
  folderIndex : Index String
  tokenIndex : Index String

/-- Five empty index maps. -/
def emptyIndexes : Indexes :=
  { attendeeIndex := [], dateIndex := [], workspaceIndex := [],
    folderIndex := [], tokenIndex := [] }

/-- The in-memory document cache (`DocumentCache` fields). -/
structure DocumentCache where
  documentsById : List (String × EnrichedDocument)
  metadataById : List (String × Metadata)
  attendeeIndex : Index String
  dateIndex : Index Int
  workspaceIndex : Index String
  folderIndex : Index String
  tokenIndex : Index String
  granolaCache : CacheMap

/-- The JavaScript environment abstracted from the source: `parseDate`
is `new Date(s).getTime()` (`none` when the result is `NaN`);
`relDate` is the `parseRelativeDate` routine of the date-parser module,
whose body is local-timezone calendar arithmetic over the `Date`
built-in (`.error` models a thrown parse error). -/
structure JsEnv where
  parseDate : String → Option Int
  relDate : String → Except String Int

/-- Model of the on-disk per-document content read lazily at query time. -/
structure Disk where
  transcriptJson : List (String × List Utterance)
  transcriptMd : List (String × String)
  resumeMd : List (String × String)

/-- Truthiness of an optional string (`undefined` and `""` are falsy). -/
def strTruthy : Option String → Bool
  | none => false
  | some s => s != ""

/-- JavaScript `a || b` on optional strings. -/
def jsOrStr (a b : Option String) : Option String :=
  match a with
  | some s => if s != "" then some s else b
  | none => b

/-- Model of `toLowerCase()` (ASCII; all strings the claims exercise are ASCII).
Implemented over the character list so that concrete evaluation reduces. -/
def strLower (s : String) : String :=
  String.mk (s.data.map Char.toLower)

/-- Model of `x.toLowerCase()` on a JSON value: defined on strings; a truthy
non-string would throw in the source (never reached on the inputs the
claims concern), modelled as the empty string. -/
def jsLower : Json → String
  | .str s => strLower s
  | _ => ""

/-- A word character of the regex `\w` (ASCII alphanumeric or underscore). -/
def isWordChar (c : Char) : Bool :=
  c.isAlphanum || c == '_'

/-- Collect the maximal word-character runs of a character list; `cur`
holds the current run reversed. -/
def tokenizeAux : List Char → List Char → List String
  | [], cur => if cur.isEmpty then [] else [String.mk cur.reverse]
  | c :: rest, cur =>
      if isWordChar c then tokenizeAux rest (c :: cur)
      else (if cur.isEmpty then [] else [String.mk cur.reverse]) ++ tokenizeAux rest []

/-- Model of `tokenize`: lowercase, split on runs of non-word characters
(`split(/[^\w]+/)`) and drop empty tokens — i.e. the maximal
word-character runs of the lowercased text. -/
def tokenize (text : String) : List String :=
  tokenizeAux (strLower text).data []

/-- Convert a cache attendee to a document attendee (the mapping applied
in `loadMetadata` and `refreshCache`). -/
def convertAttendee (a : CacheAttendee) : Attendee :=
  { email := a.email, name := a.displayName, organizer := a.organizer,
    responseStatus := a.responseStatus }

/-- Overwrite a document's `meeting_metadata` from a cache meeting, as
both `loadMetadata` and `refreshCache` do when the cache has an entry:
attendees become the converted list (or `[]`), `conference` is replaced
only when the entry has a non-empty entry-point list, and `calendarId`
is replaced unconditionally. -/
def enrichDoc (doc : EnrichedDocument) (cm : CacheMeeting) : EnrichedDocument :=
  let attendees : List Attendee :=
    match cm.attendees with
    | some l => l.map convertAttendee
    | none => []
  let conference : Option Conference :=
    match cm.conferenceData with
    | some (firstEntry :: _) =>
        some { url := firstEntry.uri, platform := firstEntry.entryPointType }
    | _ => doc.meeting_metadata.conference
  { doc with meeting_metadata :=
      { attendees := attendees, conference := conference,
        calendarId := cm.calendarId } }

/-- One directory entry of the sync directory as seen by `loadMetadata`:
`metadataFile = none` means no `metadata.json`, `some none` means the
file exists but fails to parse, `some (some m)` is a parsed record. -/
structure DirEnt where
  name : String
  isDirectory : Bool
  metadataFile : Option (Option Metadata)

/-- The body of `loadMetadata`'s per-entry processing.  The accumulator
is `(metadataById, documentsById, warned)` where `warned` records the
document ids for which a malformed-metadata warning was logged. -/
def stepDir (granolaCache : CacheMap)
    (acc : List (String × Metadata) × List (String × EnrichedDocument) × List String)
    (entry : DirEnt) :
    List (String × Metadata) × List (String × EnrichedDocument) × List String :=
  match entry.isDirectory, entry.metadataFile with
  | false, _ => acc
  | true, none => acc
  | true, some none => (acc.1, acc.2.1, acc.2.2 ++ [entry.name])
  | true, some (some metadata) =>
      let docId := entry.name
      let baseDoc : EnrichedDocument :=
        { id := docId, title := metadata.title, created_at := metadata.created_at,
          updated_at := metadata.updated_at, workspace_id := metadata.workspace_id,
          meeting_metadata := { attendees := [], conference := none, calendarId := none } }
      let doc : EnrichedDocument :=
        match getMeetingFromCache docId granolaCache with
        | some cacheMeeting => enrichDoc baseDoc cacheMeeting
        | none => baseDoc
      (mapSet acc.1 docId metadata, mapSet acc.2.1 docId doc, acc.2.2)

/-- The entry loop of `loadMetadata`. -/
def loadMetaAux (granolaCache : CacheMap) :
    List DirEnt →
    (List (String × Metadata) × List (String × EnrichedDocument) × List String) →
    List (String × Metadata) × List (String × EnrichedDocument) × List String
  | [], acc => acc
  | e :: rest, acc => loadMetaAux granolaCache rest (stepDir granolaCache acc e)

/-- Model of `loadMetadata`: `none` for the directory listing models a failed
`readdir`, the only error re-thrown to the caller. -/
def loadMetadata (granolaCache : CacheMap) :
    Option (List DirEnt) →
    Except String (List (String × Metadata) × List (String × EnrichedDocument) × List String)
  | none => .error "Failed to load documents from the sync directory"
  | some entries => .ok (loadMetaAux granolaCache entries ([], [], []))

/-- The day key of a document for the date index: the UTC calendar day
of `meeting_date || created_at` when that string is truthy and parses. -/
def dateKey (env : JsEnv) (metadata : Metadata) : Option Int :=
  let dateStr := jsOrStr metadata.meeting_date (some metadata.created_at)
  if strTruthy dateStr then
    match env.parseDate (dateStr.getD "") with
    | some t => some (Int.fdiv t 86400000)
    | none => none
  else none

/-- Attendee-index keys of a document: the lowercased truthy emails. -/
def attendeeKeys (attendees : List Attendee) : List String :=
  (attendees.filter (fun a => truthyOpt a.email)).map
    (fun a => jsLower (a.email.getD .null))

/-- Date-index keys contributed by a document (zero or one). -/
def docKeysDate (env : JsEnv) (metadata : Metadata) : List Int :=
  (dateKey env metadata).toList

/-- Workspace-index keys contributed by a document. -/
def docKeysWorkspace (metadata : Metadata) : List String :=
  if strTruthy metadata.workspace_id then [metadata.workspace_id.getD ""] else []

/-- Folder-index keys contributed by a document. -/
def docKeysFolder (metadata : Metadata) : List String :=
  metadata.folders.map (fun f => strLower f.name)

/-- Token-index keys contributed by a document. -/
def docKeysToken (metadata : Metadata) : List String :=
  tokenize metadata.title

/-- One iteration of the `buildIndexes` loop: look up the document's
metadata (skipping the document when absent) and add the document id
under each derived key of each of the five indexes. -/
def indexDocStep (env : JsEnv) (metadataById : List (String × Metadata))
    (ixs : Indexes) (p : String × EnrichedDocument) : Indexes :=
  match mapGet metadataById p.1 with
  | none => ixs
  | some metadata =>
      { attendeeIndex := addMany ixs.attendeeIndex p.1
          (attendeeKeys p.2.meeting_metadata.attendees)
      , dateIndex := addMany ixs.dateIndex p.1 (docKeysDate env metadata)
      , workspaceIndex := addMany ixs.workspaceIndex p.1 (docKeysWorkspace metadata)
      , folderIndex := addMany ixs.folderIndex p.1 (docKeysFolder metadata)
      , tokenIndex := addMany ixs.tokenIndex p.1 (docKeysToken metadata) }

/-- The `buildIndexes` loop over the loaded documents. -/
def buildIndexesAux (env : JsEnv) (metadataById : List (String × Metadata))
    (docs : List (String × EnrichedDocument)) (ixs : Indexes) : Indexes :=
  docs.foldl (indexDocStep env metadataById) ixs

/-- Model of `buildIndexes`: one pass over `documentsById`, adding to the current
index maps (the source does not clear them first). -/
def buildIndexes (env : JsEnv) (c : DocumentCache) : DocumentCache :=
  let ixs := buildIndexesAux env c.metadataById c.documentsById
    { attendeeIndex := c.attendeeIndex, dateIndex := c.dateIndex,
      workspaceIndex := c.workspaceIndex, folderIndex := c.folderIndex,
      tokenIndex := c.tokenIndex }
  { c with
    attendeeIndex := ixs.attendeeIndex
    dateIndex := ixs.dateIndex
    workspaceIndex := ixs.workspaceIndex
    folderIndex := ixs.folderIndex
    tokenIndex := ixs.tokenIndex }

/-- Model of `initialize` (renamed, as `initialize` is reserved in Lean): parse the enrichment cache, load metadata (the only
fatal failure), then build the indexes from empty maps. -/
def initializeCache (env : JsEnv) (cacheInput : CacheFileInput)
    (dir : Option (List DirEnt)) : Except String DocumentCache :=
  let granolaCache := parseCacheFile cacheInput
  match loadMetadata granolaCache dir with
  | .error e => .error e
  | .ok res =>
      .ok (buildIndexes env
        { documentsById := res.2.1, metadataById := res.1,
          attendeeIndex := [], dateIndex := [], workspaceIndex := [],
          folderIndex := [], tokenIndex := [], granolaCache := granolaCache })

/-- The attendee-index rebuild loop of `refreshCache` (from a cleared map;
unlike `buildIndexes` it does not consult `metadataById`). -/
def rebuildAttendeeIndex (docs : List (String × EnrichedDocument)) : Index String :=
  docs.foldl (fun idx p => addMany idx p.1 (attendeeKeys p.2.meeting_metadata.attendees)) []

/-- Model of `refreshCache`: re-parse the cache file, re-enrich every loaded
document that has an entry in the new parse (documents without one are
left as they are), then rebuild only the attendee index. -/
def refreshCache (c : DocumentCache) (input : CacheFileInput) : DocumentCache :=
  let granolaCache := parseCacheFile input
  let documentsById := c.documentsById.map (fun p =>
    match getMeetingFromCache p.1 granolaCache with
    | some cacheMeeting => (p.1, enrichDoc p.2 cacheMeeting)
    | none => p)
  { c with
    granolaCache := granolaCache
    documentsById := documentsById
    attendeeIndex := rebuildAttendeeIndex documentsById }

/-- Model of `stats.documentsWithAttendees`. -/
def documentsWithAttendees (c : DocumentCache) : Nat :=
  (c.documentsById.filter
    (fun p => p.2.meeting_metadata.attendees.length > 0)).length

/-- Milliseconds per day. -/
def dayMs : Int := 86400000

/-- The first instant of the UTC calendar day containing `t`. -/
def startOfDayUtc (t : Int) : Int := t - t.emod dayMs

/-- Model of `setHours(23,59,59,999)`: the last instant of the calendar day. -/
def endOfDayUtc (t : Int) : Int := startOfDayUtc t + (dayMs - 1)

/-- Model of `parseDateRange(startDate, endDate)`: each side resolved in its own
`try`; a parse failure is logged and leaves that bound `null`; a resolved
end bound is moved to the last instant of its calendar day. -/
def parseDateRange (env : JsEnv) (startDate endDate : Option String) :
    Option Int × Option Int :=
  let start : Option Int :=
    if strTruthy startDate then
      match env.relDate (startDate.getD "") with
      | .ok t => some t
      | .error _ => none
    else none
  let stop : Option Int :=
    if strTruthy endDate then
      match env.relDate (endDate.getD "") with
      | .ok t => some (endOfDayUtc t)
      | .error _ => none
    else none
  (start, stop)

/-- Model of `Set.add` on an insertion-ordered duplicate-free list. -/
def setAdd (acc : List String) (d : String) : List String :=
  if d ∈ acc then acc else acc ++ [d]

/-- Add every member of a set to an accumulating set (in order). -/
def setAddAll (acc : List String) (ids : List String) : List String :=
  ids.foldl setAdd acc

/-- Model of `new Set(list)`: deduplicate keeping first occurrences. -/
def setOfList (l : List String) : List String :=
  setAddAll [] l

/-- Infix test on character lists. -/
def charsInfix (needle : List Char) : List Char → Bool
  | [] => needle.isEmpty
  | c :: rest => needle.isPrefixOf (c :: rest) || charsInfix needle rest

/-- Model of `haystack.includes(needle)`. -/
def strIncludes (haystack needle : String) : Bool :=
  charsInfix needle.toList haystack.toList

/-- Model of `getAllDocumentIds()`. -/
def getAllDocumentIds (c : DocumentCache) : List String :=
  c.documentsById.map (fun p => p.1)

/-- Model of `getDocument(docId)`. -/
def getDocument (c : DocumentCache) (docId : String) : Option EnrichedDocument :=
  mapGet c.documentsById docId

/-- Model of `getMetadata(docId)`. -/
def getMetadata (c : DocumentCache) (docId : String) : Option Metadata :=
  mapGet c.metadataById docId

/-- Model of `getDocumentsByAttendee(emailPattern)`: union the id sets of every
attendee-index key containing the lowercased pattern. -/
def getDocumentsByAttendee (c : DocumentCache) (emailPattern : String) : List String :=
  let pattern := strLower emailPattern
  c.attendeeIndex.foldl
    (fun acc p => if strIncludes p.1 pattern then setAddAll acc p.2 else acc) []

/-- The body of the `getDocumentsByDateRange` scan for one metadata
record: its `meeting_date || created_at` must be truthy and parse, and
the parsed instant must not fall outside a present bound. -/
def dateInBounds (env : JsEnv) (md : Metadata) (start stop : Option Int) : Bool :=
  let dateStr := jsOrStr md.meeting_date (some md.created_at)
  if ¬ strTruthy dateStr then false else
  match env.parseDate (dateStr.getD "") with
  | none => false
  | some d =>
      if (match start with | some s => decide (d < s) | none => false) then false
      else if (match stop with | some e => decide (e < d) | none => false) then false
      else true

/-- Model of `getDocumentsByDateRange(start, end)`: scan document metadata
directly, keeping documents whose parsed `meeting_date || created_at`
instant lies within the (possibly open) bounds. -/
def getDocumentsByDateRange (env : JsEnv) (c : DocumentCache)
    (start stop : Option Int) : List String :=
  c.metadataById.foldl (fun acc p =>
    if dateInBounds env p.2 start stop then setAdd acc p.1 else acc) []

/-- Model of `getDocumentsByWorkspace(workspaceId)`: exact index lookup. -/
def getDocumentsByWorkspace (c : DocumentCache) (workspaceId : String) : List String :=
  indexGet c.workspaceIndex workspaceId

/-- Model of `getDocumentsByFolder(folderNamePattern)`: union the id sets of every
folder-index key containing the lowercased pattern. -/
def getDocumentsByFolder (c : DocumentCache) (folderNamePattern : String) : List String :=
  let pattern := strLower folderNamePattern
  c.folderIndex.foldl
    (fun acc p => if strIncludes p.1 pattern then setAddAll acc p.2 else acc) []

/-- Model of `getDocumentsByTitle(query)`: union of the token-index sets of the
query's tokens. -/
def getDocumentsByTitle (c : DocumentCache) (query : String) : List String :=
  let tokens := tokenize query
  let matchingSets := tokens.filterMap
    (fun t => (c.tokenIndex.find? (fun p => p.1 = t)).map (fun p => p.2))
  matchingSets.foldl setAddAll []

/-- Model of `getTranscript(docId)`: the parsed `transcript.json`, or `null`. -/
def getTranscript (disk : Disk) (docId : String) : Option (List Utterance) :=
  mapGet disk.transcriptJson docId

/-- Model of `getTranscriptMarkdown(docId)`. -/
def getTranscriptMarkdown (disk : Disk) (docId : String) : Option String :=
  mapGet disk.transcriptMd docId

/-- Model of `getResumeMarkdown(docId)`. -/
def getResumeMarkdown (disk : Disk) (docId : String) : Option String :=
  mapGet disk.resumeMd docId

/-- The instant a document is dated by: the parse of its truthy
`meeting_date || created_at` string, when any. -/
def meetingInstant (env : JsEnv) (metadata : Metadata) : Option Int :=
  let meetingDate := jsOrStr metadata.meeting_date (some metadata.created_at)
  if strTruthy meetingDate then env.parseDate (meetingDate.getD "") else none

/-- Case-insensitive substring test of a query against a document's
transcript (the joined utterance texts). -/
def transcriptContains (disk : Disk) (docId : String) (query : String) : Bool :=
  match getTranscript disk docId with
  | some transcript =>
      strIncludes (strLower (String.intercalate " " (transcript.map (fun u => u.text))))
        (strLower query)
  | none => false

/-- Model of `SearchParams`: all fields optional. -/
structure SearchParams where
  attendee_email : Option String := none
  start_date : Option String := none
  end_date : Option String := none
  workspace_id : Option String := none
  folder_name : Option String := none
  content_query : Option String := none
  limit : Option Nat := none
  include_transcript : Option Bool := none

/-- One ranked search result (`SearchMatch`). -/
structure SearchMatch where
  document_id : String
  title : String
  meeting_date : Option String
  workspace_name : Option String
  folders : List String
  attendees : List Attendee
  snippet : Option String
  relevance_score : ℚ
  transcript : Option String

/-- Model of `SearchResponse` (`matches` is reserved in Lean, hence `matches'`). -/
structure SearchResponse where
  matches' : List SearchMatch
  total_matches : Nat
  query_summary : String

/-- Model of `intersect(setA, setB)`: members of A also in B, in A's order. -/
def intersect (setA setB : List String) : List String :=
  setA.filter (fun x => setB.contains x)

/-- Model of `calculateRelevance(doc, metadata, contentQuery, titleMatches, cache)`:
the accumulated relevance score. -/
def calculateRelevance (env : JsEnv) (now : Int) (disk : Disk)
    (doc : EnrichedDocument) (metadata : Metadata)
    (contentQuery : Option String) (titleMatches : Bool) : ℚ :=
  let score : ℚ := 0
  let score := if strTruthy contentQuery && titleMatches then score + 10 else score
  let score :=
    let meetingDate := jsOrStr metadata.meeting_date (some metadata.created_at)
    if strTruthy meetingDate then
      match env.parseDate (meetingDate.getD "") with
      | some t =>
          let daysAgo : ℚ := (((now : ℚ) - (t : ℚ)) / ((1000 * 60 * 60 * 24 : Int) : ℚ))
          score + max 0 (5 - daysAgo / 7)
      | none => score
    else score
  let score := score + ((metadata.folders.length : ℚ) * (1 / 2 : ℚ))
  let score :=
    if doc.meeting_metadata.attendees.length > 0 then score + 1 else score
  let score :=
    if strTruthy contentQuery then
      match getTranscript disk doc.id with
      | some transcript =>
          if transcript.length > 0 then
            let transcriptText :=
              strLower (String.intercalate " " (transcript.map (fun u => u.text)))
            let query := strLower (contentQuery.getD "")
            if strIncludes transcriptText query then score + 5 else score
          else score
      | none => score
    else score
  score

/-- The relevance formula as the specification states it: the sum of a
10-point title bonus (content query supplied and title token-matched),
`max(0, 5 - days_since_meeting/7)` recency points when the meeting (or
creation) instant parses, 0.5 points per folder membership, 1 point for
having at least one attendee, and a 5-point bonus when a content query
was supplied and the transcript contains it case-insensitively. -/
def specRelevance (env : JsEnv) (now : Int) (disk : Disk)
    (doc : EnrichedDocument) (metadata : Metadata)
    (contentQuery : Option String) (titleMatched : Bool) : ℚ :=
  (if strTruthy contentQuery = true ∧ titleMatched = true then (10 : ℚ) else 0)
  + (match meetingInstant env metadata with
     | some t => max 0 (5 - (((now : ℚ) - (t : ℚ)) / 86400000) / 7)
     | none => 0)
  + (metadata.folders.length : ℚ) * (1 / 2)
  + (if doc.meeting_metadata.attendees.length > 0 then (1 : ℚ) else 0)
  + (if strTruthy contentQuery = true ∧
        transcriptContains disk doc.id (contentQuery.getD "") = true
     then (5 : ℚ) else 0)

/-- Stable insertion (descending by score): place a new element after all
existing elements of greater-or-equal score, matching the stable
`Array.prototype.sort` of the source. -/
def insertDesc (x : String × ℚ) : List (String × ℚ) → List (String × ℚ)
  | [] => [x]
  | y :: ys => if x.2 ≤ y.2 then y :: insertDesc x ys else x :: y :: ys

/-- Model of `scoredDocs.sort((a, b) => b.score - a.score)` (stable). -/
def sortByScoreDesc (l : List (String × ℚ)) : List (String × ℚ) :=
  l.foldl (fun acc x => insertDesc x acc) []

/-- The scoring loop of `searchDocuments`: skip ids whose document or
metadata is missing, score the rest, and (when a content query is
supplied) drop candidates whose total score is zero. -/
def scoreStep (env : JsEnv) (now : Int) (cache : DocumentCache)
    (disk : Disk) (contentQuery : Option String)
    (contentMatchIds : Option (List String))
    (acc : List (String × ℚ)) (docId : String) : List (String × ℚ) :=
  match getDocument cache docId, getMetadata cache docId with
  | some doc, some metadata =>
      let titleMatches :=
        match contentMatchIds with
        | some ids => ids.contains docId
        | none => false
      let score := calculateRelevance env now disk doc metadata contentQuery titleMatches
      if strTruthy contentQuery = true ∧ score = 0 then acc
      else acc ++ [(docId, score)]
  | _, _ => acc

def scoreCandidates (env : JsEnv) (now : Int) (cache : DocumentCache)
    (disk : Disk) (contentQuery : Option String)
    (contentMatchIds : Option (List String)) (candidateIds : List String) :
    List (String × ℚ) :=
  candidateIds.foldl (scoreStep env now cache disk contentQuery contentMatchIds) []

/-- Model of `trim()`: strip leading and trailing whitespace. -/
def strTrim (s : String) : String :=
  String.mk (((s.data.dropWhile Char.isWhitespace).reverse.dropWhile
    Char.isWhitespace).reverse)

/-- Result assembly for one kept match. -/
def buildMatch (disk : Disk) (includeTranscript : Bool)
    (docId : String) (score : ℚ) (doc : EnrichedDocument) (metadata : Metadata) :
    SearchMatch :=
  let snippet : Option String :=
    match getResumeMarkdown disk docId with
    | some resume =>
        if resume != "" then
          some (strTrim (String.mk (resume.data.take 200)) ++
            (if resume.length > 200 then "..." else ""))
        else none
    | none => none
  let transcript : Option String :=
    if includeTranscript then
      match getTranscriptMarkdown disk docId with
      | some t => if t != "" then some t else none
      | none => none
    else none
  { document_id := docId
  , title := metadata.title
  , meeting_date := jsOrStr metadata.meeting_date (some metadata.created_at)
  , workspace_name := metadata.workspace_name
  , folders := metadata.folders.map (fun f => f.name)
  , attendees := doc.meeting_metadata.attendees
  , snippet := snippet
  , relevance_score := score
  , transcript := transcript }

/-- Model of `searchDocuments(cache, params)`. -/
def searchDocuments (env : JsEnv) (now : Int) (cache : DocumentCache)
    (disk : Disk) (params : SearchParams) : SearchResponse :=
  let limit := params.limit.getD 10
  let includeTranscript := (params.include_transcript.getD false)
  let candidateIds := setOfList (getAllDocumentIds cache)
  let filters : List String := []
  let candidateIds :=
    if strTruthy params.attendee_email then
      intersect candidateIds (getDocumentsByAttendee cache (params.attendee_email.getD ""))
    else candidateIds
  let filters :=
    if strTruthy params.attendee_email then
      filters ++ ["attendee: \"" ++ params.attendee_email.getD "" ++ "\""]
    else filters
  let candidateIds :=
    if strTruthy params.start_date || strTruthy params.end_date then
      let range := parseDateRange env params.start_date params.end_date
      intersect candidateIds (getDocumentsByDateRange env cache range.1 range.2)
    else candidateIds
  let filters :=
    if strTruthy params.start_date || strTruthy params.end_date then
      if strTruthy params.start_date && strTruthy params.end_date then
        filters ++ ["dates: " ++ params.start_date.getD "" ++ " to " ++ params.end_date.getD ""]
      else if strTruthy params.start_date then
        filters ++ ["from: " ++ params.start_date.getD ""]
      else
        filters ++ ["until: " ++ params.end_date.getD ""]
    else filters
  let candidateIds :=
    if strTruthy params.workspace_id then
      intersect candidateIds (getDocumentsByWorkspace cache (params.workspace_id.getD ""))
    else candidateIds
  let filters :=
    if strTruthy params.workspace_id then
      filters ++ ["workspace: " ++ params.workspace_id.getD ""]
    else filters
  let candidateIds :=
    if strTruthy params.folder_name then
      intersect candidateIds (getDocumentsByFolder cache (params.folder_name.getD ""))
    else candidateIds
  let filters :=
    if strTruthy params.folder_name then
      filters ++ ["folder: \"" ++ params.folder_name.getD "" ++ "\""]
    else filters
  let contentMatchIds : Option (List String) :=
    if strTruthy params.content_query then
      some (getDocumentsByTitle cache (params.content_query.getD ""))
    else none
  let filters :=
    if strTruthy params.content_query then
      filters ++ ["content: \"" ++ params.content_query.getD "" ++ "\""]
    else filters
  let querySummary :=
    if filters.length > 0 then "Filtering by: " ++ String.intercalate ", " filters
    else "Showing all meetings"
  let scoredDocs := scoreCandidates env now cache disk params.content_query
    contentMatchIds candidateIds
  let topDocs := (sortByScoreDesc scoredDocs).take limit
  let matchesList : List SearchMatch := topDocs.filterMap (fun p =>
    match getDocument cache p.1, getMetadata cache p.1 with
    | some doc, some metadata =>
        some (buildMatch disk includeTranscript p.1 p.2 doc metadata)
    | _, _ => none)
  { matches' := matchesList
  , total_matches := scoredDocs.length
  , query_summary := querySummary }

/-! ### Concrete instances used by closed counterexamples and witnesses -/

/-- A concrete JavaScript environment: the one date expression
`2024-01-10` parses (to midnight UTC of that day); everything else fails. -/
def testEnv : JsEnv :=
  { parseDate := fun s => if s = "2024-01-10" then some 1704844800000 else none
  , relDate := fun s =>
      if s = "2024-01-10" then .ok 1704844800000 else .error "Cannot parse date" }

/-- Metadata of the sample document `d1`. -/
def md1 : Metadata :=
  { document_id := "d1"
    title := "Standup"
    created_at := "2024-01-10"
    updated_at := "2024-01-10"
    workspace_id := none
    workspace_name := none
    folders := [{ id := "f1", name := "Work" }]
    meeting_date := none
    sources := [] }

/-- A sync directory holding the one document `d1`. -/
def dir1 : List DirEnt :=
  [{ name := "d1", isDirectory := true, metadataFile := some (some md1) }]

/-- A disk with no transcripts or notes. -/
def emptyDiskDef : Disk :=
  { transcriptJson := [], transcriptMd := [], resumeMd := [] }

/-- The enriched document `d1` when the enrichment cache is empty. -/
def doc1 : EnrichedDocument :=
  { id := "d1"
    title := "Standup"
    created_at := "2024-01-10"
    updated_at := "2024-01-10"
    workspace_id := none
    meeting_metadata := { attendees := [], conference := none, calendarId := none } }

/-- The document cache obtained by initializing over `dir1` with an
absent enrichment file. -/
def c1cache : DocumentCache :=
  { documentsById := [("d1", doc1)]
    metadataById := [("d1", md1)]
    attendeeIndex := []
    dateIndex := [(19732, ["d1"])]
    workspaceIndex := []
    folderIndex := [("work", ["d1"])]
    tokenIndex := [("standup", ["d1"])]
    granolaCache := [] }

/-- A query whose content query matches neither the title nor any transcript. -/
def params1 : SearchParams := { content_query := some "budget" }

/-- The attendee record parsed for `joe@x.com`. -/
def caJoe : CacheAttendee :=
  { email := some (.str "joe@x.com")
    displayName := none
    organizer := .bool false
    responseStatus := none }

/-- The cache entry for `d1` carrying one attendee. -/
def cmJoe : CacheMeeting :=
  { id := .str "d1"
    attendees := some [caJoe]
    conferenceData := none
    calendarId := none }

/-- A cache file whose one entry attaches `joe@x.com` to `d1`. -/
def cacheInputJoe : CacheFileInput :=
  .content (.arr [.obj [("id", .str "d1"),
    ("attendees", .arr [.obj [("email", .str "joe@x.com")]])]])

/-- Model of `d1` enriched with the attendee from `cacheInputJoe`. -/
def docJoe : EnrichedDocument :=
  { id := "d1"
    title := "Standup"
    created_at := "2024-01-10"
    updated_at := "2024-01-10"
    workspace_id := none
    meeting_metadata :=
      { attendees := [convertAttendee caJoe], conference := none, calendarId := none } }

/-- The document cache obtained by initializing over `dir1` with
`cacheInputJoe`. -/
def c2cache : DocumentCache :=
  { documentsById := [("d1", docJoe)]
    metadataById := [("d1", md1)]
    attendeeIndex := [("joe@x.com", ["d1"])]
    dateIndex := [(19732, ["d1"])]
    workspaceIndex := []
    folderIndex := [("work", ["d1"])]
    tokenIndex := [("standup", ["d1"])]
    granolaCache := [(.str "d1", cmJoe)] }

/-- A well-formed cache entry with id `a`. -/
def entryA : Json := .obj [("id", .str "a")]

/-- A cache entry with an id but a `null` conference entry point: in the
source, mapping over its entry points throws a `TypeError`. -/
def entryBad : Json :=
  .obj [("id", .str "b"),
    ("conferenceData", .obj [("entryPoints", .arr [.null])])]

/-- A well-formed cache entry with id `c`. -/
def entryC : Json := .obj [("id", .str "c")]

/-- Metadata of a second sample document `d2`. -/
def md2 : Metadata :=
  { document_id := "d2"
    title := "Budget Review"
    created_at := "2024-01-10"
    updated_at := "2024-01-10"
    workspace_id := some "w1"
    workspace_name := some "Acme"
    folders := []
    meeting_date := none
    sources := [] }

/-- The enriched document `d2` with no enrichment. -/
def doc2 : EnrichedDocument :=
  { id := "d2"
    title := "Budget Review"
    created_at := "2024-01-10"
    updated_at := "2024-01-10"
    workspace_id := some "w1"
    meeting_metadata := { attendees := [], conference := none, calendarId := none } }

/-! ### Supporting lemmas -/

theorem mem_indexAdd {κ : Type} [DecidableEq κ] (idx : Index κ) (key : κ)
    (docId d : String) (k : κ) :
    d ∈ indexGet (indexAdd idx key docId) k ↔
      d ∈ indexGet idx k ∨ (d = docId ∧ k = key) := by
  induction idx with
  | nil =>
      by_cases h : key = k
      · subst h
        simp [indexAdd, indexGet]
      · have h2 : ¬ k = key := fun hh => h hh.symm
        simp [indexAdd, indexGet, h, h2]
  | cons hd tl ih =>
      obtain ⟨k1, ids⟩ := hd
      by_cases h : k1 = key
      · subst h
        by_cases h2 : k1 = k
        · subst h2
          by_cases h3 : docId ∈ ids
          · simp only [indexAdd, if_pos rfl, if_pos h3, indexGet]
            constructor
            · exact fun hd2 => Or.inl (by simpa using hd2)
            · rintro (hd2 | ⟨rfl, -⟩)
              · simpa using hd2
              · simpa using h3
          · simp only [indexAdd, if_pos rfl, if_neg h3, indexGet]
            simp [List.mem_append]
        · have h2s : ¬ k = k1 := fun hh => h2 hh.symm
          simp [indexAdd, indexGet, h2, h2s]
      · by_cases h2 : k1 = k
        · subst h2
          have hs : ¬ k1 = key := h
          simp [indexAdd, indexGet, h, hs]
        · simp [indexAdd, indexGet, h, h2, ih]

theorem mem_addMany {κ : Type} [DecidableEq κ] (keys : List κ) (idx : Index κ)
    (docId d : String) (k : κ) :
    d ∈ indexGet (addMany idx docId keys) k ↔
      d ∈ indexGet idx k ∨ (d = docId ∧ k ∈ keys) := by
  induction keys generalizing idx with
  | nil => simp [addMany]
  | cons key rest ih =>
      have hstep : addMany idx docId (key :: rest) =
          addMany (indexAdd idx key docId) docId rest := rfl
      rw [hstep, ih, mem_indexAdd]
      simp only [List.mem_cons]
      tauto

theorem mem_setAdd (acc : List String) (x d : String) :
    d ∈ setAdd acc x ↔ d ∈ acc ∨ d = x := by
  by_cases h : x ∈ acc
  · simp only [setAdd, if_pos h]
    constructor
    · exact Or.inl
    · rintro (hd | rfl)
      · exact hd
      · exact h
  · simp [setAdd, h]

theorem mem_setAddAll (ids acc : List String) (d : String) :
    d ∈ setAddAll acc ids ↔ d ∈ acc ∨ d ∈ ids := by
  induction ids generalizing acc with
  | nil => simp [setAddAll]
  | cons x rest ih =>
      have hstep : setAddAll acc (x :: rest) = setAddAll (setAdd acc x) rest := rfl
      rw [hstep, ih, mem_setAdd]
      simp only [List.mem_cons]
      tauto

theorem mem_setOfList (l : List String) (d : String) :
    d ∈ setOfList l ↔ d ∈ l := by
  simp [setOfList, mem_setAddAll]

theorem mem_intersect (A B : List String) (d : String) :
    d ∈ intersect A B ↔ d ∈ A ∧ d ∈ B := by
  simp [intersect, List.mem_filter]

theorem mem_insertDesc (x y : String × ℚ) (l : List (String × ℚ)) :
    y ∈ insertDesc x l ↔ y = x ∨ y ∈ l := by
  induction l with
  | nil => simp [insertDesc]
  | cons z rest ih =>
      by_cases h : x.2 ≤ z.2 <;> simp [insertDesc, h, ih] <;> tauto

theorem mem_sortByScoreDesc (l : List (String × ℚ)) (x : String × ℚ) :
    x ∈ sortByScoreDesc l ↔ x ∈ l := by
  suffices h : ∀ acc : List (String × ℚ),
      x ∈ l.foldl (fun acc y => insertDesc y acc) acc ↔ x ∈ acc ∨ x ∈ l by
    simpa [sortByScoreDesc] using h []
  induction l with
  | nil => intro acc; simp
  | cons z rest ih =>
      intro acc
      simp only [List.foldl_cons, ih, mem_insertDesc, List.mem_cons]
      tauto

theorem mapGet_mapSet {β : Type} (m : List (String × β)) (k k2 : String) (v : β) :
    mapGet (mapSet m k v) k2 = if k2 = k then some v else mapGet m k2 := by
  unfold mapSet mapGet
  by_cases hany : m.any (fun p => p.1 = k) = true
  · rw [if_pos hany, List.find?_map]
    by_cases hk : k2 = k
    · subst hk
      have hpred : ((fun p : String × β => decide (p.1 = k2)) ∘
          (fun p => if p.1 = k2 then (k2, v) else p)) =
          fun p : String × β => decide (p.1 = k2) := by
        funext p
        by_cases hp : p.1 = k2 <;> simp [hp]
      rw [hpred, if_pos rfl]
      obtain ⟨p1, hp1m, hp1⟩ := List.any_eq_true.mp hany
      have hsome : (m.find? (fun p => decide (p.1 = k2))).isSome := by
        exact List.find?_isSome.mpr ⟨p1, hp1m, by simpa using hp1⟩
      obtain ⟨p2, hp2⟩ := Option.isSome_iff_exists.mp hsome
      rw [hp2]
      have hp2k : p2.1 = k2 := by simpa using List.find?_some hp2
      simp [hp2k]
    · have hpred : ((fun p : String × β => decide (p.1 = k2)) ∘
          (fun p => if p.1 = k then (k, v) else p)) =
          fun p : String × β => decide (p.1 = k2) := by
        funext p
        by_cases hp : p.1 = k
        · have : ¬ k = k2 := fun hh => hk hh.symm
          simp [hp, this]
        · simp [hp]
      rw [hpred, if_neg hk]
      cases hfind : m.find? (fun p => decide (p.1 = k2)) with
      | none => simp
      | some p1 =>
          have hp1k : p1.1 = k2 := by simpa using List.find?_some hfind
          have hp1ne : ¬ p1.1 = k := by rw [hp1k]; exact hk
          simp [hp1ne]
  · rw [if_neg hany, List.find?_append]
    have hnone : m.find? (fun p => decide (p.1 = k)) = none := by
      rw [List.find?_eq_none]
      intro x hx
      simp only [decide_eq_true_eq]
      intro hxk
      exact hany (List.any_eq_true.mpr ⟨x, hx, by simpa using hxk⟩)
    by_cases hk : k2 = k
    · subst hk
      rw [hnone]
      simp [List.find?]
    · have hks : ¬ k = k2 := fun hh => hk hh.symm
      have h2 : List.find? (fun p => decide (p.1 = k2)) [(k, v)] = none := by
        simp [List.find?, hks]
      rw [h2, if_neg hk]
      cases m.find? (fun p => decide (p.1 = k2)) <;> simp

theorem mem_keys_mapSet {β : Type} (m : List (String × β)) (k : String) (v : β)
    (d : String) :
    d ∈ (mapSet m k v).map Prod.fst ↔ d ∈ m.map Prod.fst ∨ d = k := by
  unfold mapSet
  by_cases hany : m.any (fun p => p.1 = k) = true
  · obtain ⟨p0, hp0m, hp0⟩ := List.any_eq_true.mp hany
    have hp0k : p0.1 = k := by simpa using hp0
    rw [if_pos hany]
    simp only [List.map_map, List.mem_map, Function.comp]
    constructor
    · rintro ⟨p, hp, heq⟩
      by_cases hpk : p.1 = k
      · right
        rw [if_pos hpk] at heq
        exact heq.symm
      · left
        rw [if_neg hpk] at heq
        exact ⟨p, hp, heq⟩
    · rintro (⟨p, hp, rfl⟩ | rfl)
      · by_cases hpk : p.1 = k
        · refine ⟨p0, hp0m, ?_⟩
          rw [if_pos hp0k]
          exact hpk ▸ rfl
        · exact ⟨p, hp, by rw [if_neg hpk]⟩
      · exact ⟨p0, hp0m, by rw [if_pos hp0k]⟩
  · rw [if_neg hany]
    simp only [List.map_append, List.mem_append, List.map_cons, List.map_nil,
      List.mem_singleton]

theorem indexDocStep_attendee (env : JsEnv) (mdb : List (String × Metadata))
    (ixs : Indexes) (p : String × EnrichedDocument) :
    (indexDocStep env mdb ixs p).attendeeIndex =
      match mapGet mdb p.1 with
      | none => ixs.attendeeIndex
      | some _ => addMany ixs.attendeeIndex p.1
          (attendeeKeys p.2.meeting_metadata.attendees) := by
  unfold indexDocStep
  cases mapGet mdb p.1 <;> rfl

theorem mem_buildAux_attendee (env : JsEnv) (mdb : List (String × Metadata))
    (docs : List (String × EnrichedDocument)) (d : String) (k : String) :
    ∀ ixs : Indexes,
      d ∈ indexGet (buildIndexesAux env mdb docs ixs).attendeeIndex k ↔
        d ∈ indexGet ixs.attendeeIndex k ∨
          ∃ p ∈ docs, d = p.1 ∧ (mapGet mdb p.1).isSome = true ∧
            k ∈ attendeeKeys p.2.meeting_metadata.attendees := by
  induction docs with
  | nil => intro ixs; simp [buildIndexesAux]
  | cons q rest ih =>
      intro ixs
      have hstep : buildIndexesAux env mdb (q :: rest) ixs =
          buildIndexesAux env mdb rest (indexDocStep env mdb ixs q) := rfl
      rw [hstep, ih, indexDocStep_attendee]
      cases hq : mapGet mdb q.1 with
      | none => simp [hq]
      | some md => simp [hq, mem_addMany]; tauto

theorem mem_buildAux_date (env : JsEnv) (mdb : List (String × Metadata))
    (docs : List (String × EnrichedDocument)) (d : String) (k : Int) :
    ∀ ixs : Indexes,
      d ∈ indexGet (buildIndexesAux env mdb docs ixs).dateIndex k ↔
        d ∈ indexGet ixs.dateIndex k ∨
          ∃ p ∈ docs, d = p.1 ∧ ∃ md, mapGet mdb p.1 = some md ∧
            k ∈ docKeysDate env md := by
  induction docs with
  | nil => intro ixs; simp [buildIndexesAux]
  | cons q rest ih =>
      intro ixs
      have hstep : buildIndexesAux env mdb (q :: rest) ixs =
          buildIndexesAux env mdb rest (indexDocStep env mdb ixs q) := rfl
      have hproj : (indexDocStep env mdb ixs q).dateIndex =
          match mapGet mdb q.1 with
          | none => ixs.dateIndex
          | some md => addMany ixs.dateIndex q.1 (docKeysDate env md) := by
        unfold indexDocStep
        cases mapGet mdb q.1 <;> rfl
      rw [hstep, ih, hproj]
      cases hq : mapGet mdb q.1 with
      | none => simp [hq]
      | some md => simp [hq, mem_addMany]; tauto

theorem mem_buildAux_workspace (env : JsEnv) (mdb : List (String × Metadata))
    (docs : List (String × EnrichedDocument)) (d : String) (k : String) :
    ∀ ixs : Indexes,
      d ∈ indexGet (buildIndexesAux env mdb docs ixs).workspaceIndex k ↔
        d ∈ indexGet ixs.workspaceIndex k ∨
          ∃ p ∈ docs, d = p.1 ∧ ∃ md, mapGet mdb p.1 = some md ∧
            k ∈ docKeysWorkspace md := by
  induction docs with
  | nil => intro ixs; simp [buildIndexesAux]
  | cons q rest ih =>
      intro ixs
      have hstep : buildIndexesAux env mdb (q :: rest) ixs =
          buildIndexesAux env mdb rest (indexDocStep env mdb ixs q) := rfl
      have hproj : (indexDocStep env mdb ixs q).workspaceIndex =
          match mapGet mdb q.1 with
          | none => ixs.workspaceIndex
          | some md => addMany ixs.workspaceIndex q.1 (docKeysWorkspace md) := by
        unfold indexDocStep
        cases mapGet mdb q.1 <;> rfl
      rw [hstep, ih, hproj]
      cases hq : mapGet mdb q.1 with
      | none => simp [hq]
      | some md => simp [hq, mem_addMany]; tauto

theorem mem_buildAux_folder (env : JsEnv) (mdb : List (String × Metadata))
    (docs : List (String × EnrichedDocument)) (d : String) (k : String) :
    ∀ ixs : Indexes,
      d ∈ indexGet (buildIndexesAux env mdb docs ixs).folderIndex k ↔
        d ∈ indexGet ixs.folderIndex k ∨
          ∃ p ∈ docs, d = p.1 ∧ ∃ md, mapGet mdb p.1 = some md ∧
            k ∈ docKeysFolder md := by
  induction docs with
  | nil => intro ixs; simp [buildIndexesAux]
  | cons q rest ih =>
      intro ixs
      have hstep : buildIndexesAux env mdb (q :: rest) ixs =
          buildIndexesAux env mdb rest (indexDocStep env mdb ixs q) := rfl
      have hproj : (indexDocStep env mdb ixs q).folderIndex =
          match mapGet mdb q.1 with
          | none => ixs.folderIndex
          | some md => addMany ixs.folderIndex q.1 (docKeysFolder md) := by
        unfold indexDocStep
        cases mapGet mdb q.1 <;> rfl
      rw [hstep, ih, hproj]
      cases hq : mapGet mdb q.1 with
      | none => simp [hq]
      | some md => simp [hq, mem_addMany]; tauto

theorem mem_buildAux_token (env : JsEnv) (mdb : List (String × Metadata))
    (docs : List (String × EnrichedDocument)) (d : String) (k : String) :
    ∀ ixs : Indexes,
      d ∈ indexGet (buildIndexesAux env mdb docs ixs).tokenIndex k ↔
        d ∈ indexGet ixs.tokenIndex k ∨
          ∃ p ∈ docs, d = p.1 ∧ ∃ md, mapGet mdb p.1 = some md ∧
            k ∈ docKeysToken md := by
  induction docs with
  | nil => intro ixs; simp [buildIndexesAux]
  | cons q rest ih =>
      intro ixs
      have hstep : buildIndexesAux env mdb (q :: rest) ixs =
          buildIndexesAux env mdb rest (indexDocStep env mdb ixs q) := rfl
      have hproj : (indexDocStep env mdb ixs q).tokenIndex =
          match mapGet mdb q.1 with
          | none => ixs.tokenIndex
          | some md => addMany ixs.tokenIndex q.1 (docKeysToken md) := by
        unfold indexDocStep
        cases mapGet mdb q.1 <;> rfl
      rw [hstep, ih, hproj]
      cases hq : mapGet mdb q.1 with
      | none => simp [hq]
      | some md => simp [hq, mem_addMany]; tauto

theorem mem_rebuildAttendeeIndex (docs : List (String × EnrichedDocument))
    (d : String) (k : String) :
    d ∈ indexGet (rebuildAttendeeIndex docs) k ↔
      ∃ p ∈ docs, d = p.1 ∧ k ∈ attendeeKeys p.2.meeting_metadata.attendees := by
  suffices h : ∀ idx : Index String,
      d ∈ indexGet (docs.foldl (fun idx p =>
        addMany idx p.1 (attendeeKeys p.2.meeting_metadata.attendees)) idx) k ↔
        d ∈ indexGet idx k ∨
          ∃ p ∈ docs, d = p.1 ∧ k ∈ attendeeKeys p.2.meeting_metadata.attendees by
    simpa [rebuildAttendeeIndex, indexGet] using h []
  induction docs with
  | nil => intro idx; simp
  | cons q rest ih =>
      intro idx
      simp [List.foldl_cons, ih, mem_addMany]
      tauto

theorem mem_scoreStep_foldl (env : JsEnv) (now : Int) (cache : DocumentCache)
    (disk : Disk) (cq : Option String) (cmi : Option (List String))
    (ids : List String) (x : String × ℚ) :
    ∀ acc : List (String × ℚ),
      x ∈ ids.foldl (scoreStep env now cache disk cq cmi) acc →
        x ∈ acc ∨ (x.1 ∈ ids ∧ (strTruthy cq = true → ¬ x.2 = 0)) := by
  induction ids with
  | nil => intro acc h; exact Or.inl h
  | cons q rest ih =>
      intro acc h
      have h2 := ih (scoreStep env now cache disk cq cmi acc q) h
      rcases h2 with h2 | ⟨h3, h4⟩
      · unfold scoreStep at h2
        rcases hdoc : getDocument cache q with _ | doc
        · rw [hdoc] at h2
          exact Or.inl h2
        · rcases hmd : getMetadata cache q with _ | metadata
          · rw [hdoc, hmd] at h2
            exact Or.inl h2
          · rw [hdoc, hmd] at h2
            simp only at h2
            split at h2
            · exact Or.inl h2
            · rename_i hcond
              rcases List.mem_append.mp h2 with h5 | h5
              · exact Or.inl h5
              · right
                rw [List.mem_singleton] at h5
                subst h5
                refine ⟨List.mem_cons_self _ _, ?_⟩
                intro ht hzero
                exact hcond ⟨ht, hzero⟩
      · exact Or.inr ⟨List.mem_cons_of_mem _ h3, h4⟩

theorem mem_scoreCandidates (env : JsEnv) (now : Int) (cache : DocumentCache)
    (disk : Disk) (cq : Option String) (cmi : Option (List String))
    (ids : List String) (x : String × ℚ) :
    x ∈ scoreCandidates env now cache disk cq cmi ids →
      x.1 ∈ ids ∧ (strTruthy cq = true → ¬ x.2 = 0) := by
  intro h
  have h2 := mem_scoreStep_foldl env now cache disk cq cmi ids x [] h
  simpa using h2

theorem mem_ite_intersect (b : Prop) [Decidable b] (A X : List String) (d : String) :
    d ∈ (if b then intersect A X else A) → d ∈ A := by
  split
  · exact fun h => ((mem_intersect A X d).mp h).1
  · exact id

theorem mem_assembleMatches (cache : DocumentCache) (disk : Disk) (it : Bool)
    (scored : List (String × ℚ)) (limit : Nat) (m : SearchMatch)
    (hm : m ∈ ((sortByScoreDesc scored).take limit).filterMap (fun p =>
      match getDocument cache p.1, getMetadata cache p.1 with
      | some doc, some metadata => some (buildMatch disk it p.1 p.2 doc metadata)
      | _, _ => none)) :
    ∃ p ∈ scored, m.document_id = p.1 ∧ m.relevance_score = p.2 := by
  obtain ⟨p, hp, hfp⟩ := List.mem_filterMap.mp hm
  have hp2 : p ∈ scored := (mem_sortByScoreDesc _ _).mp (List.take_subset _ _ hp)
  refine ⟨p, hp2, ?_⟩
  rcases hdoc : getDocument cache p.1 with _ | doc <;> rw [hdoc] at hfp
  · exact absurd hfp (by simp)
  rcases hmd : getMetadata cache p.1 with _ | md <;> rw [hmd] at hfp
  · exact absurd hfp (by simp)
  have hb : buildMatch disk it p.1 p.2 doc md = m := by simpa using hfp
  rw [← hb]
  exact ⟨rfl, rfl⟩

theorem searchDocuments_matches_sound (env : JsEnv) (now : Int)
    (cache : DocumentCache) (disk : Disk) (params : SearchParams) :
    ∀ m ∈ (searchDocuments env now cache disk params).matches',
      m.document_id ∈ getAllDocumentIds cache ∧
        (strTruthy params.content_query = true → ¬ m.relevance_score = 0) := by
  intro m hm
  simp only [searchDocuments] at hm
  obtain ⟨p, hp2, hid, hsc⟩ := mem_assembleMatches _ _ _ _ _ _ hm
  obtain ⟨hcand, hscore⟩ := mem_scoreCandidates _ _ _ _ _ _ _ _ hp2
  have h4 := mem_ite_intersect _ _ _ _ hcand
  have h3 := mem_ite_intersect _ _ _ _ h4
  have h2 := mem_ite_intersect _ _ _ _ h3
  have h1 := mem_ite_intersect _ _ _ _ h2
  refine ⟨?_, ?_⟩
  · rw [hid]
    exact (mem_setOfList _ _).mp h1
  · intro ht
    rw [hsc]
    exact hscore ht

theorem mapGet_cons {β : Type} (q : String × β) (rest : List (String × β)) (k : String) :
    mapGet (q :: rest) k = if q.1 = k then some q.2 else mapGet rest k := by
  by_cases h : q.1 = k <;> simp [mapGet, List.find?, h]

theorem map_fst_refreshMap (gc : CacheMap) (l : List (String × EnrichedDocument)) :
    (l.map (fun p => match getMeetingFromCache p.1 gc with
      | some cm => (p.1, enrichDoc p.2 cm)
      | none => p)).map Prod.fst = l.map Prod.fst := by
  induction l with
  | nil => rfl
  | cons q rest ih =>
      cases h : getMeetingFromCache q.1 gc <;> simp [h, ih]

theorem mapGet_refreshMap (gc : CacheMap) (l : List (String × EnrichedDocument))
    (k : String) :
    mapGet (l.map (fun p => match getMeetingFromCache p.1 gc with
      | some cm => (p.1, enrichDoc p.2 cm)
      | none => p)) k =
      (mapGet l k).map (fun doc => match getMeetingFromCache k gc with
        | some cm => enrichDoc doc cm
        | none => doc) := by
  induction l with
  | nil => rfl
  | cons q rest ih =>
      rcases hcm : getMeetingFromCache q.1 gc with _ | cm
      · by_cases hk : q.1 = k
        · subst hk
          rw [List.map_cons, hcm, mapGet_cons, mapGet_cons, if_pos rfl, if_pos rfl]
          simp [hcm]
        · rw [List.map_cons, hcm, mapGet_cons, mapGet_cons, if_neg hk, if_neg hk, ih]
      · by_cases hk : q.1 = k
        · subst hk
          rw [List.map_cons, hcm, mapGet_cons, mapGet_cons]
          simp [hcm]
        · rw [List.map_cons, hcm, mapGet_cons, mapGet_cons]
          simp only [if_neg hk, ih]

theorem mem_mapSet {β : Type} (m : List (String × β)) (k : String) (v : β)
    (p : String × β) :
    p ∈ mapSet m k v → p ∈ m ∨ p = (k, v) := by
  unfold mapSet
  split
  · intro hp
    obtain ⟨q, hq, hfq⟩ := List.mem_map.mp hp
    by_cases hqk : q.1 = k
    · right
      rw [if_pos hqk] at hfq
      exact hfq.symm
    · left
      rw [if_neg hqk] at hfq
      exact hfq ▸ hq
  · intro hp
    rcases List.mem_append.mp hp with h | h
    · exact Or.inl h
    · exact Or.inr (by simpa using h)

/-- A sync-directory entry whose metadata file exists but fails to parse
(skipped with a logged warning). -/
def isMalformedDirEnt (e : DirEnt) : Bool :=
  e.isDirectory && (match e.metadataFile with | some none => true | _ => false)

/-- A sync-directory entry whose metadata file parses (loaded). -/
def isLoadedDirEnt (e : DirEnt) : Bool :=
  e.isDirectory && (match e.metadataFile with | some (some _) => true | _ => false)

theorem loadMetaAux_warnings (gc : CacheMap) (entries : List DirEnt) :
    ∀ acc, (loadMetaAux gc entries acc).2.2 =
      acc.2.2 ++ (entries.filter isMalformedDirEnt).map (fun e => e.name) := by
  induction entries with
  | nil => intro acc; simp [loadMetaAux]
  | cons e rest ih =>
      intro acc
      have hstep : loadMetaAux gc (e :: rest) acc =
          loadMetaAux gc rest (stepDir gc acc e) := rfl
      rw [hstep, ih]
      rcases e with ⟨name, isDir, mf⟩
      cases isDir
      · simp [stepDir, isMalformedDirEnt]
      · rcases mf with _ | mf2
        · simp [stepDir, isMalformedDirEnt]
        · rcases mf2 with _ | md
          · simp [stepDir, isMalformedDirEnt]
          · simp [stepDir, isMalformedDirEnt]

theorem loadMetaAux_docKeys (gc : CacheMap) (entries : List DirEnt) (d : String) :
    ∀ acc, d ∈ (loadMetaAux gc entries acc).2.1.map Prod.fst ↔
      d ∈ acc.2.1.map Prod.fst ∨
        ∃ e ∈ entries, isLoadedDirEnt e = true ∧ e.name = d := by
  induction entries with
  | nil => intro acc; simp [loadMetaAux]
  | cons e rest ih =>
      intro acc
      have hstep : loadMetaAux gc (e :: rest) acc =
          loadMetaAux gc rest (stepDir gc acc e) := rfl
      rw [hstep, ih]
      rcases e with ⟨name, isDir, mf⟩
      cases isDir
      · simp [stepDir, isLoadedDirEnt]
      · rcases mf with _ | mf2
        · simp [stepDir, isLoadedDirEnt]
        · rcases mf2 with _ | md
          · simp [stepDir, isLoadedDirEnt]
          · simp only [stepDir]
            rw [mem_keys_mapSet]
            constructor
            · rintro ((h | h) | ⟨e, he, hl, hn⟩)
              · exact Or.inl h
              · subst h
                refine Or.inr ⟨(⟨d, true, some (some md)⟩ : DirEnt),
                  List.mem_cons_self _ _, ?_, rfl⟩
                simp [isLoadedDirEnt]
              · exact Or.inr ⟨e, List.mem_cons_of_mem _ he, hl, hn⟩
            · rintro (h | ⟨e, he, hl, hn⟩)
              · exact Or.inl (Or.inl h)
              · rcases List.mem_cons.mp he with rfl | he2
                · exact Or.inl (Or.inr hn.symm)
                · exact Or.inr ⟨e, he2, hl, hn⟩

theorem loadMetaAux_attendees_empty (entries : List DirEnt) :
    ∀ acc, (∀ p ∈ acc.2.1, p.2.meeting_metadata.attendees = []) →
      ∀ p ∈ (loadMetaAux [] entries acc).2.1,
        p.2.meeting_metadata.attendees = [] := by
  induction entries with
  | nil => intro acc hacc; exact hacc
  | cons e rest ih =>
      intro acc hacc
      have hstep : loadMetaAux [] (e :: rest) acc =
          loadMetaAux [] rest (stepDir [] acc e) := rfl
      rw [hstep]
      refine ih (stepDir [] acc e) ?_
      intro p hp
      rcases e with ⟨name, isDir, mf⟩
      cases isDir
      · exact hacc p hp
      · rcases mf with _ | mf2
        · exact hacc p hp
        · rcases mf2 with _ | md
          · exact hacc p hp
          · rcases mem_mapSet _ _ _ _ hp with h | h
            · exact hacc p h
            · rw [h]
              rfl

theorem mem_foldl_setAdd_if {α : Type} (l : List α) (C : α → Bool)
    (key : α → String) (d : String) :
    ∀ acc, d ∈ l.foldl (fun acc p => if C p then setAdd acc (key p) else acc) acc ↔
      d ∈ acc ∨ ∃ p ∈ l, C p = true ∧ key p = d := by
  induction l with
  | nil => intro acc; simp
  | cons q rest ih =>
      intro acc
      simp only [List.foldl_cons, ih]
      cases hq : C q
      · simp [hq]
      · simp [hq, mem_setAdd]
        tauto

theorem mem_getDocumentsByDateRange (env : JsEnv) (c : DocumentCache)
    (start stop : Option Int) (d : String) :
    d ∈ getDocumentsByDateRange env c start stop ↔
      ∃ p ∈ c.metadataById, dateInBounds env p.2 start stop = true ∧ p.1 = d := by
  have h := mem_foldl_setAdd_if c.metadataById
    (fun p => dateInBounds env p.2 start stop) (fun p => p.1) d []
  simpa [getDocumentsByDateRange] using h

theorem le_endOfDayUtc_of_sameDay (d t : Int)
    (h : startOfDayUtc d = startOfDayUtc t) : d ≤ endOfDayUtc t := by
  unfold endOfDayUtc startOfDayUtc dayMs at *
  have h1 : d.emod 86400000 < 86400000 := Int.emod_lt_of_pos _ (by norm_num)
  have h2 : 0 ≤ d.emod 86400000 := Int.emod_nonneg _ (by norm_num)
  omega

theorem startOfDayUtc_le (d : Int) : startOfDayUtc d ≤ d := by
  unfold startOfDayUtc dayMs
  have h2 : 0 ≤ d.emod 86400000 := Int.emod_nonneg _ (by norm_num)
  omega

theorem getD_ne_empty_of_strTruthy (cq : Option String) (h : strTruthy cq = true) :
    cq.getD "" ≠ "" := by
  cases cq with
  | none => simp [strTruthy] at h
  | some s => simpa [strTruthy] using h

theorem strIncludes_empty_left (needle : String) (h : needle ≠ "") :
    strIncludes "" needle = false := by
  have hd : needle.toList ≠ [] := by
    intro hdata
    apply h
    cases needle with
    | mk l => simpa [String.toList] using congrArg String.mk hdata
  have hrfl : strIncludes "" needle = needle.toList.isEmpty := rfl
  rw [hrfl]
  simpa [List.isEmpty_iff] using hd

theorem strLower_ne_empty (s : String) (h : s ≠ "") : strLower s ≠ "" := by
  intro hcon
  apply h
  have h2 : s.data.map Char.toLower = [] := congrArg String.data hcon
  have h3 : s.data = [] := List.map_eq_nil_iff.mp h2
  cases s with
  | mk l => simpa using congrArg String.mk h3

/-- C4: for every candidate document and query, the relevance score
computed by the source's `calculateRelevance` equals the specification's
sum: a fixed 10 when a content query was supplied and the title
token-matched, `max(0, 5 - days_since_meeting/7)` recency points when the
meeting (or creation) instant parses, 0.5 points per folder membership,
1 point for having at least one attendee, and 5 points when a content
query was supplied and the transcript contains it as a case-insensitive
substring (`specRelevance`). -/
theorem calculateRelevance_eq_specRelevance (env : JsEnv) (now : Int) (disk : Disk)
    (doc : EnrichedDocument) (metadata : Metadata) (cq : Option String) (tm : Bool) :
    calculateRelevance env now disk doc metadata cq tm =
      specRelevance env now disk doc metadata cq tm := by
  unfold calculateRelevance specRelevance meetingInstant transcriptContains
  cases hcq : strTruthy cq with
  | false =>
      cases hmd : strTruthy (jsOrStr metadata.meeting_date (some metadata.created_at)) with
      | false =>
          by_cases hatt : doc.meeting_metadata.attendees.length > 0 <;>
            simp [hcq, hmd, hatt]
      | true =>
          cases ht : env.parseDate
              ((jsOrStr metadata.meeting_date (some metadata.created_at)).getD "") with
          | none =>
              by_cases hatt : doc.meeting_metadata.attendees.length > 0 <;>
                simp [hcq, hmd, ht, hatt]
          | some t =>
              by_cases hatt : doc.meeting_metadata.attendees.length > 0 <;>
                simp [hcq, hmd, ht, hatt]
  | true =>
      have hq : cq.getD "" ≠ "" := getD_ne_empty_of_strTruthy cq hcq
      have hql : strLower (cq.getD "") ≠ "" := strLower_ne_empty _ hq
      have hTnil : strLower (String.intercalate " "
          (List.map (fun u => u.text) ([] : List Utterance))) = "" := rfl
      have hTnil2 : strLower (String.intercalate " " ([] : List String)) = "" := rfl
      rcases htrx : getTranscript disk doc.id with _ | tr
      · cases htm : tm <;>
          cases hmd : strTruthy (jsOrStr metadata.meeting_date (some metadata.created_at)) <;>
            cases ht : env.parseDate
                ((jsOrStr metadata.meeting_date (some metadata.created_at)).getD "") <;>
              by_cases hatt : doc.meeting_metadata.attendees.length > 0 <;>
                simp [hcq, hmd, ht, htrx, hatt]
      · by_cases hlen : 0 < tr.length
        case neg =>
          have htrnil : tr = [] := List.eq_nil_of_length_eq_zero (by omega)
          subst htrnil
          cases htm : tm <;>
            cases hmd : strTruthy (jsOrStr metadata.meeting_date (some metadata.created_at)) <;>
              cases ht : env.parseDate
                  ((jsOrStr metadata.meeting_date (some metadata.created_at)).getD "") <;>
                by_cases hatt : doc.meeting_metadata.attendees.length > 0 <;>
                  simp [hcq, hmd, ht, htrx, hatt, hTnil, hTnil2,
                    strIncludes_empty_left _ hql]
        case pos =>
          by_cases hinc : strIncludes (strLower (String.intercalate " "
              (tr.map (fun u => u.text)))) (strLower (cq.getD "")) = true <;>
            cases htm : tm <;>
              cases hmd : strTruthy (jsOrStr metadata.meeting_date (some metadata.created_at)) <;>
                cases ht : env.parseDate
                    ((jsOrStr metadata.meeting_date (some metadata.created_at)).getD "") <;>
                  by_cases hatt : doc.meeting_metadata.attendees.length > 0 <;>
                    simp [hcq, hmd, ht, htrx, hatt, hlen, hinc]


theorem extractMeetingInfo_skip (e : Json) (m : CacheMap)
    (h : (e.truthy && e.isObjectType) = false ∨ truthyOpt (idAlias e) = false) :
    extractMeetingInfo e m = .ok m := by
  rcases h with h | h
  · simp [extractMeetingInfo, h]
  · by_cases h1 : (e.truthy && e.isObjectType) = true
    · simp [extractMeetingInfo, h1, h]
    · simp [extractMeetingInfo, Bool.eq_false_iff.mpr h1]

theorem refresh_attendee_subset (c : DocumentCache) (input : CacheFileInput)
    (k d : String) :
    d ∈ indexGet (refreshCache c input).attendeeIndex k →
      d ∈ getAllDocumentIds (refreshCache c input) := by
  intro h
  obtain ⟨p, hp, hdp, -⟩ := (mem_rebuildAttendeeIndex _ _ _).mp h
  exact List.mem_map.mpr ⟨p, hp, hdp.symm⟩

theorem mem_buildIndexes_attendee (env : JsEnv) (c : DocumentCache)
    (d k : String) :
    d ∈ indexGet (buildIndexes env c).attendeeIndex k ↔
      d ∈ indexGet c.attendeeIndex k ∨
        ∃ p ∈ c.documentsById, d = p.1 ∧ (mapGet c.metadataById p.1).isSome = true ∧
          k ∈ attendeeKeys p.2.meeting_metadata.attendees :=
  mem_buildAux_attendee env c.metadataById c.documentsById d k
    ⟨c.attendeeIndex, c.dateIndex, c.workspaceIndex, c.folderIndex, c.tokenIndex⟩

theorem mem_buildIndexes_date (env : JsEnv) (c : DocumentCache)
    (d : String) (k : Int) :
    d ∈ indexGet (buildIndexes env c).dateIndex k ↔
      d ∈ indexGet c.dateIndex k ∨
        ∃ p ∈ c.documentsById, d = p.1 ∧ ∃ md, mapGet c.metadataById p.1 = some md ∧
          k ∈ docKeysDate env md :=
  mem_buildAux_date env c.metadataById c.documentsById d k
    ⟨c.attendeeIndex, c.dateIndex, c.workspaceIndex, c.folderIndex, c.tokenIndex⟩

theorem mem_buildIndexes_workspace (env : JsEnv) (c : DocumentCache)
    (d k : String) :
    d ∈ indexGet (buildIndexes env c).workspaceIndex k ↔
      d ∈ indexGet c.workspaceIndex k ∨
        ∃ p ∈ c.documentsById, d = p.1 ∧ ∃ md, mapGet c.metadataById p.1 = some md ∧
          k ∈ docKeysWorkspace md :=
  mem_buildAux_workspace env c.metadataById c.documentsById d k
    ⟨c.attendeeIndex, c.dateIndex, c.workspaceIndex, c.folderIndex, c.tokenIndex⟩

theorem mem_buildIndexes_folder (env : JsEnv) (c : DocumentCache)
    (d k : String) :
    d ∈ indexGet (buildIndexes env c).folderIndex k ↔
      d ∈ indexGet c.folderIndex k ∨
        ∃ p ∈ c.documentsById, d = p.1 ∧ ∃ md, mapGet c.metadataById p.1 = some md ∧
          k ∈ docKeysFolder md :=
  mem_buildAux_folder env c.metadataById c.documentsById d k
    ⟨c.attendeeIndex, c.dateIndex, c.workspaceIndex, c.folderIndex, c.tokenIndex⟩

theorem mem_buildIndexes_token (env : JsEnv) (c : DocumentCache)
    (d k : String) :
    d ∈ indexGet (buildIndexes env c).tokenIndex k ↔
      d ∈ indexGet c.tokenIndex k ∨
        ∃ p ∈ c.documentsById, d = p.1 ∧ ∃ md, mapGet c.metadataById p.1 = some md ∧
          k ∈ docKeysToken md :=
  mem_buildAux_token env c.metadataById c.documentsById d k
    ⟨c.attendeeIndex, c.dateIndex, c.workspaceIndex, c.folderIndex, c.tokenIndex⟩

/-! Claim theorems -/

/-- C10: a search in which an optional string filter field is present but
equal to the empty string behaves exactly as the same search with that
field omitted: the whole `SearchResponse` is identical, for each of the
six string filter fields. -/
theorem searchDocuments_empty_string_filters (env : JsEnv) (now : Int)
    (c : DocumentCache) (disk : Disk) (p : SearchParams) :
    searchDocuments env now c disk { p with attendee_email := some "" } =
      searchDocuments env now c disk { p with attendee_email := none } ∧
    searchDocuments env now c disk { p with start_date := some "" } =
      searchDocuments env now c disk { p with start_date := none } ∧
    searchDocuments env now c disk { p with end_date := some "" } =
      searchDocuments env now c disk { p with end_date := none } ∧
    searchDocuments env now c disk { p with workspace_id := some "" } =
      searchDocuments env now c disk { p with workspace_id := none } ∧
    searchDocuments env now c disk { p with folder_name := some "" } =
      searchDocuments env now c disk { p with folder_name := none } ∧
    searchDocuments env now c disk { p with content_query := some "" } =
      searchDocuments env now c disk { p with content_query := none } :=
  ⟨rfl, rfl, rfl, rfl, rfl, rfl⟩

/-- C3: a refresh leaves the metadata map, the date, workspace, folder
and title-token indexes, and the list of loaded document ids exactly as
they were, and a document id that was not loaded at initialization (for
example a directory added to disk afterwards) never appears in query
results after a refresh. -/
theorem refreshCache_frame (c : DocumentCache) (input : CacheFileInput) :
    (refreshCache c input).metadataById = c.metadataById ∧
    (refreshCache c input).dateIndex = c.dateIndex ∧
    (refreshCache c input).workspaceIndex = c.workspaceIndex ∧
    (refreshCache c input).folderIndex = c.folderIndex ∧
    (refreshCache c input).tokenIndex = c.tokenIndex ∧
    getAllDocumentIds (refreshCache c input) = getAllDocumentIds c ∧
    (∀ d, d ∉ getAllDocumentIds c → ∀ env now disk params,
      d ∉ (searchDocuments env now (refreshCache c input) disk params).matches'.map
        (fun m => m.document_id)) := by
  have heq : getAllDocumentIds (refreshCache c input) = getAllDocumentIds c :=
    map_fst_refreshMap (parseCacheFile input) c.documentsById
  refine ⟨rfl, rfl, rfl, rfl, rfl, heq, ?_⟩
  intro d hd env now disk params hmem
  obtain ⟨m, hm, hmd⟩ := List.mem_map.mp hmem
  have h := (searchDocuments_matches_sound env now _ disk params m hm).1
  rw [hmd, heq] at h
  exact hd h

/-- Witness for C3 at a concrete cache and absent refresh input. -/
theorem refreshCache_frame_witness :
    ("dx" ∉ getAllDocumentIds c1cache) ∧
    (∀ env now disk params,
      "dx" ∉ (searchDocuments env now (refreshCache c1cache .absent) disk
        params).matches'.map (fun m => m.document_id)) :=
  ⟨by decide, fun env now disk params =>
    (refreshCache_frame c1cache .absent).2.2.2.2.2.2 "dx" (by decide)
      env now disk params⟩

/-- C1 (amended): when a content query is supplied, a document is
excluded from the results exactly when its total relevance score is zero;
every returned match has a nonzero score.  (The original claim — that a
document whose title and transcript do not match the content query never
appears — is refuted by `searchDocuments_content_counterexample`: such a
document still appears whenever recency, folder, or attendee
contributions make its total score positive.) -/
theorem searchDocuments_content_zero_score_excluded (env : JsEnv) (now : Int)
    (cache : DocumentCache) (disk : Disk) (params : SearchParams)
    (h : strTruthy params.content_query = true) :
    ∀ m ∈ (searchDocuments env now cache disk params).matches',
      ¬ m.relevance_score = 0 :=
  fun m hm => (searchDocuments_matches_sound env now cache disk params m hm).2 h

/-- Witness for the amended C1 at a concrete query. -/
theorem searchDocuments_content_zero_score_excluded_witness :
    strTruthy params1.content_query = true ∧
    (∀ m ∈ (searchDocuments testEnv 1704844800000 c1cache emptyDiskDef
        params1).matches', ¬ m.relevance_score = 0) :=
  ⟨by decide, searchDocuments_content_zero_score_excluded testEnv 1704844800000
    c1cache emptyDiskDef params1 (by decide)⟩

/-- Counterexample to C1 as stated: the cache obtained by initializing
over the one document `d1` (title `Standup`, one folder, meeting day
`2024-01-10`, no transcript on disk) is searched with content query
`budget`, which matches neither the title tokens nor any transcript; the
document nevertheless appears in `matches`, because its recency and
folder contributions make its total score nonzero. -/
theorem searchDocuments_content_counterexample :
    initializeCache testEnv .absent (some dir1) = .ok c1cache ∧
    strTruthy params1.content_query = true ∧
    getDocumentsByTitle c1cache (params1.content_query.getD "") = [] ∧
    getTranscript emptyDiskDef "d1" = none ∧
    (searchDocuments testEnv 1704844800000 c1cache emptyDiskDef params1).matches'.map
      (fun m => m.document_id) = ["d1"] := by
  refine ⟨rfl, by decide, rfl, rfl, ?_⟩
  norm_num +decide [searchDocuments, scoreCandidates, scoreStep, calculateRelevance,
    getDocument, getMetadata, getTranscript, jsOrStr, strTruthy, mapGet, testEnv, md1,
    doc1, emptyDiskDef, c1cache, params1, setOfList, getAllDocumentIds, setAddAll,
    setAdd, intersect, getDocumentsByTitle, tokenize, sortByScoreDesc, insertDesc,
    buildMatch, getResumeMarkdown, getTranscriptMarkdown]

/-- C2 (amended): after a refresh, a loaded record whose id has an entry
in the freshly parsed mapping has its enrichment overwritten by
`enrichDoc` — attendees become the fresh (converted) list or `[]`,
`calendarId` is replaced by the fresh value, and `conference` is replaced
only when the fresh entry has a non-empty entry-point list (otherwise the
previous conference value is kept); a record whose id has NO entry keeps
its previous enrichment attachment unchanged — it does not revert to an
empty attachment.  (The original claim's revert-to-empty behaviour is
refuted by `refreshCache_no_revert_counterexample`.) -/
theorem refreshCache_enrichment (c : DocumentCache) (input : CacheFileInput)
    (docId : String) (doc : EnrichedDocument)
    (h : mapGet c.documentsById docId = some doc) :
    mapGet (refreshCache c input).documentsById docId =
      some ((getMeetingFromCache docId (parseCacheFile input)).elim doc
        (enrichDoc doc)) ∧
    (∀ cm : CacheMeeting,
      (enrichDoc doc cm).meeting_metadata.attendees =
        cm.attendees.elim [] (List.map convertAttendee) ∧
      (enrichDoc doc cm).meeting_metadata.calendarId = cm.calendarId ∧
      (enrichDoc doc cm).meeting_metadata.conference =
        (match cm.conferenceData with
         | some (ep :: _) => some { url := ep.uri, platform := ep.entryPointType }
         | _ => doc.meeting_metadata.conference)) := by
  constructor
  · have hmap := mapGet_refreshMap (parseCacheFile input) c.documentsById docId
    have : mapGet (refreshCache c input).documentsById docId =
        (mapGet c.documentsById docId).map (fun d2 =>
          match getMeetingFromCache docId (parseCacheFile input) with
          | some cm => enrichDoc d2 cm
          | none => d2) := hmap
    rw [this, h]
    cases getMeetingFromCache docId (parseCacheFile input) <;> rfl
  · intro cm
    rcases cm with ⟨cid, catt, cconf, ccal⟩
    refine ⟨?_, rfl, ?_⟩
    · cases catt <;> rfl
    · rcases cconf with _ | eps
      · rfl
      · cases eps <;> rfl

/-- Witness for the amended C2 at the concrete cache `c2cache` refreshed
against an absent cache file. -/
theorem refreshCache_enrichment_witness :
    mapGet c2cache.documentsById "d1" = some docJoe ∧
    (mapGet (refreshCache c2cache .absent).documentsById "d1" =
      some ((getMeetingFromCache "d1" (parseCacheFile .absent)).elim docJoe
        (enrichDoc docJoe)) ∧
    (∀ cm : CacheMeeting,
      (enrichDoc docJoe cm).meeting_metadata.attendees =
        cm.attendees.elim [] (List.map convertAttendee) ∧
      (enrichDoc docJoe cm).meeting_metadata.calendarId = cm.calendarId ∧
      (enrichDoc docJoe cm).meeting_metadata.conference =
        (match cm.conferenceData with
         | some (ep :: _) => some { url := ep.uri, platform := ep.entryPointType }
         | _ => docJoe.meeting_metadata.conference))) :=
  ⟨rfl, refreshCache_enrichment c2cache .absent "d1" docJoe rfl⟩

/-- Counterexample to C2 as stated: initializing over `dir1` with the
cache file attaching `joe@x.com` to `d1` yields `c2cache`; refreshing
with an absent cache file (whose parse is the empty mapping, so `d1` has
no entry) leaves the attendee list of `d1` intact with one attendee,
instead of reverting it to the empty attachment. -/
theorem refreshCache_no_revert_counterexample :
    initializeCache testEnv cacheInputJoe (some dir1) = .ok c2cache ∧
    getMeetingFromCache "d1" (parseCacheFile .absent) = none ∧
    (mapGet (refreshCache c2cache .absent).documentsById "d1").map
      (fun doc => doc.meeting_metadata.attendees.length) = some 1 := by
  exact ⟨rfl, rfl, rfl⟩

/-- C5: range resolution resolves the two sides independently — the
resolved start bound does not depend on the end expression and vice
versa; a side whose expression fails to parse is returned as the open
bound `none` while the other side is still resolved; a successfully
resolved end bound is moved to the last instant of its calendar day
(`endOfDayUtc`); consequently a document whose meeting (or creation)
instant falls anywhere on the end date's calendar day — and is not cut
off by the start bound — is kept by the date filter. -/
theorem parseDateRange_independent_and_inclusive (env : JsEnv) :
    (∀ sd ed ed2, (parseDateRange env sd ed).1 = (parseDateRange env sd ed2).1) ∧
    (∀ sd sd2 ed, (parseDateRange env sd ed).2 = (parseDateRange env sd2 ed).2) ∧
    (∀ s ed msg, env.relDate s = .error msg →
      (parseDateRange env (some s) ed).1 = none) ∧
    (∀ sd e msg, env.relDate e = .error msg →
      (parseDateRange env sd (some e)).2 = none) ∧
    (∀ sd e t, env.relDate e = .ok t → e ≠ "" →
      (parseDateRange env sd (some e)).2 = some (endOfDayUtc t)) ∧
    (∀ (c : DocumentCache) (sd : Option String) (e : String) (t d : Int)
        (docId : String) (md : Metadata),
      env.relDate e = .ok t → e ≠ "" →
      (docId, md) ∈ c.metadataById →
      strTruthy (jsOrStr md.meeting_date (some md.created_at)) = true →
      env.parseDate ((jsOrStr md.meeting_date (some md.created_at)).getD "") = some d →
      startOfDayUtc d = startOfDayUtc t →
      (∀ s0, (parseDateRange env sd (some e)).1 = some s0 → ¬ d < s0) →
      docId ∈ getDocumentsByDateRange env c (parseDateRange env sd (some e)).1
        (parseDateRange env sd (some e)).2) := by
  refine ⟨fun sd ed ed2 => rfl, fun sd sd2 ed => rfl, ?_, ?_, ?_, ?_⟩
  · intro s ed msg hmsg
    simp [parseDateRange, hmsg]
  · intro sd e msg hmsg
    simp [parseDateRange, hmsg]
  · intro sd e t ht he
    simp [parseDateRange, strTruthy, he, ht]
  · intro c sd e t d docId md ht he hmem hdateStr hparse hday hstart
    have hstop : (parseDateRange env sd (some e)).2 = some (endOfDayUtc t) := by
      simp [parseDateRange, strTruthy, he, ht]
    rw [mem_getDocumentsByDateRange]
    refine ⟨(docId, md), hmem, ?_, rfl⟩
    unfold dateInBounds
    have hle : d ≤ endOfDayUtc t := le_endOfDayUtc_of_sameDay d t hday
    have hstartFalse :
        (match (parseDateRange env sd (some e)).1 with
          | some s => decide (d < s)
          | none => false) = false := by
      cases hs : (parseDateRange env sd (some e)).1 with
      | none => rfl
      | some s0 => simpa using hstart s0 hs
    simp only [hdateStr, hparse, hstop, hstartFalse]
    simp [not_lt.mpr hle]

/-- Witness for C5 at a concrete state: the end expression `2024-01-10`
resolves, the start side is absent, a failing end expression yields an
open end bound, and `d1` (created at the very start of that calendar
day) is kept by the date filter. -/
theorem parseDateRange_witness :
    (testEnv.relDate "2024-01-10" = .ok 1704844800000) ∧
    ("2024-01-10" ≠ "") ∧
    (testEnv.relDate "nonsense" = .error "Cannot parse date") ∧
    ((parseDateRange testEnv none (some "nonsense")).2 = none) ∧
    (("d1", md1) ∈ c1cache.metadataById) ∧
    (strTruthy (jsOrStr md1.meeting_date (some md1.created_at)) = true) ∧
    (testEnv.parseDate ((jsOrStr md1.meeting_date (some md1.created_at)).getD "") =
      some 1704844800000) ∧
    (startOfDayUtc 1704844800000 = startOfDayUtc 1704844800000) ∧
    "d1" ∈ getDocumentsByDateRange testEnv c1cache
      (parseDateRange testEnv none (some "2024-01-10")).1
      (parseDateRange testEnv none (some "2024-01-10")).2 := by
  refine ⟨rfl, by decide, rfl, ?_, by decide, by decide, rfl, rfl, ?_⟩
  · exact (parseDateRange_independent_and_inclusive testEnv).2.2.2.1 none
      "nonsense" "Cannot parse date" rfl
  · exact (parseDateRange_independent_and_inclusive testEnv).2.2.2.2.2 c1cache none
      "2024-01-10" 1704844800000 1704844800000 "d1" md1 rfl (by decide) (by decide)
      (by decide) rfl rfl (fun s0 hs => by simp [parseDateRange, strTruthy] at hs)

/-- C6 (amended): the cache parser never fails its caller — an absent,
unreadable, or invalid file yields the empty mapping; an entry that is
not a truthy object, or that lacks every recognized id alias, is skipped
while the remaining entries are still parsed; and initialization over a
malformed enrichment file succeeds with `documentsWithAttendees = 0`.
(The original claim's universal "any malformed entry is skipped while the
remaining entries are still parsed" is refuted by
`parseCacheFile_abort_counterexample`: an entry whose conference
entry-point list contains `null` raises a TypeError that is caught at the
file level, so the entries after it are dropped — though the accumulated
mapping is still returned and the caller still sees no failure.) -/
theorem parseCacheFile_error_tolerance :
    parseCacheFile .absent = [] ∧
    parseCacheFile .invalid = [] ∧
    (∀ (e : Json) (m : CacheMap),
      ((e.truthy && e.isObjectType) = false ∨ truthyOpt (idAlias e) = false) →
      extractMeetingInfo e m = .ok m) ∧
    (∀ (pre post : List Json) (e : Json) (m : CacheMap),
      ((e.truthy && e.isObjectType) = false ∨ truthyOpt (idAlias e) = false) →
      runEntries (pre ++ e :: post) m = runEntries (pre ++ post) m) ∧
    (∀ (env : JsEnv) (dir : Option (List DirEnt)) (c : DocumentCache),
      initializeCache env .invalid dir = .ok c → documentsWithAttendees c = 0) := by
  refine ⟨rfl, rfl, extractMeetingInfo_skip, ?_, ?_⟩
  · intro pre post e m hskip
    induction pre generalizing m with
    | nil =>
        have he : extractMeetingInfo e m = .ok m := extractMeetingInfo_skip e m hskip
        have h1 : runEntries (([] : List Json) ++ e :: post) m =
            match extractMeetingInfo e m with
            | .ok m2 => runEntries post m2
            | .error _ => m := rfl
        rw [h1, he]
        rfl
    | cons q pre ih =>
        have h1 : runEntries ((q :: pre) ++ e :: post) m =
            match extractMeetingInfo q m with
            | .ok m2 => runEntries (pre ++ e :: post) m2
            | .error _ => m := rfl
        have h2 : runEntries ((q :: pre) ++ post) m =
            match extractMeetingInfo q m with
            | .ok m2 => runEntries (pre ++ post) m2
            | .error _ => m := rfl
        rw [h1, h2]
        cases extractMeetingInfo q m with
        | error u => rfl
        | ok m2 => exact ih m2
  · intro env dir c h
    cases dir with
    | none => simp [initializeCache, loadMetadata] at h
    | some entries =>
        simp only [initializeCache, loadMetadata, Except.ok.injEq] at h
        have hdocs : c.documentsById =
            (loadMetaAux (parseCacheFile .invalid) entries ([], [], [])).2.1 := by
          rw [← h]
          rfl
        have hempty : ∀ p ∈ c.documentsById, p.2.meeting_metadata.attendees = [] := by
          rw [hdocs]
          exact loadMetaAux_attendees_empty entries ([], [], []) (by simp)
        unfold documentsWithAttendees
        rw [List.length_eq_zero]
        rw [List.filter_eq_nil_iff]
        intro p hp
        simp [hempty p hp]

/-- Counterexample to C6 as stated: in a cache file listing the entries
`a`, then an entry `b` whose conference entry points contain `null`, then
`c`, the parse keeps `a` but drops the well-formed later entry `c`
(which parses fine on its own), because the `null` entry point raises a
TypeError that ends the entry loop. -/
theorem parseCacheFile_abort_counterexample :
    truthyOpt (idAlias entryBad) = true ∧
    (getMeetingFromCache "a"
      (parseCacheFile (.content (.arr [entryA, entryBad, entryC])))).isSome = true ∧
    getMeetingFromCache "c"
      (parseCacheFile (.content (.arr [entryA, entryBad, entryC]))) = none ∧
    (getMeetingFromCache "c"
      (parseCacheFile (.content (.arr [entryC])))).isSome = true :=
  ⟨rfl, rfl, rfl, rfl⟩

/-- Witness for the amended C6: a non-object entry is skipped between two
well-formed entries, and initialization over an invalid cache file
reports zero documents with attendees. -/
theorem parseCacheFile_error_tolerance_witness :
    ((Json.num 7).truthy && (Json.num 7).isObjectType) = false ∧
    runEntries ([entryA] ++ Json.num 7 :: [entryC]) [] =
      runEntries ([entryA] ++ [entryC]) [] ∧
    initializeCache testEnv .invalid (some dir1) =
      .ok { c1cache with granolaCache := parseCacheFile .invalid } ∧
    documentsWithAttendees { c1cache with granolaCache := parseCacheFile .invalid } = 0 := by
  refine ⟨by decide, ?_, rfl, ?_⟩
  · exact (parseCacheFile_error_tolerance.2.2.2.1) [entryA] [entryC] (Json.num 7) []
      (Or.inl (by decide))
  · exact (parseCacheFile_error_tolerance.2.2.2.2) testEnv (some dir1) _ rfl

/-- C7: during metadata loading a subdirectory with a missing metadata
file is skipped with no warning, one with a malformed metadata file is
skipped and its id is the only kind that is logged, the remaining
documents are still loaded (a directory entry is loaded exactly when it
is a directory whose metadata file parses), and the only load error —
which also aborts initialization — is the failure to enumerate the root
sync directory itself. -/
theorem loadMetadata_error_isolation (gc : CacheMap) :
    loadMetadata gc none = .error "Failed to load documents from the sync directory" ∧
    (∀ entries, loadMetadata gc (some entries) =
      .ok (loadMetaAux gc entries ([], [], []))) ∧
    (∀ entries, (loadMetaAux gc entries ([], [], [])).2.2 =
      (entries.filter isMalformedDirEnt).map (fun e => e.name)) ∧
    (∀ entries d, d ∈ (loadMetaAux gc entries ([], [], [])).2.1.map Prod.fst ↔
      ∃ e ∈ entries, isLoadedDirEnt e = true ∧ e.name = d) ∧
    (∀ (env : JsEnv) (ci : CacheFileInput), (initializeCache env ci none).isOk = false) ∧
    (∀ (env : JsEnv) (ci : CacheFileInput) entries,
      (initializeCache env ci (some entries)).isOk = true) := by
  refine ⟨rfl, fun entries => rfl, ?_, ?_, fun env ci => rfl, fun env ci entries => rfl⟩
  · intro entries
    simpa using loadMetaAux_warnings gc entries ([], [], [])
  · intro entries d
    simpa using loadMetaAux_docKeys gc entries d ([], [], [])

/-- C8: index construction is idempotent and order-independent in set
membership — running `buildIndexes` a second time over the unchanged
document set changes no index's membership at any key, and building from
scratch over any permutation of the document list yields the same
membership at every key of each of the five indexes. -/
theorem buildIndexes_idempotent_orderIndependent (env : JsEnv) :
    (∀ (c : DocumentCache) (k : String) (kd : Int) (d : String),
      (d ∈ indexGet (buildIndexes env (buildIndexes env c)).attendeeIndex k ↔
        d ∈ indexGet (buildIndexes env c).attendeeIndex k) ∧
      (d ∈ indexGet (buildIndexes env (buildIndexes env c)).dateIndex kd ↔
        d ∈ indexGet (buildIndexes env c).dateIndex kd) ∧
      (d ∈ indexGet (buildIndexes env (buildIndexes env c)).workspaceIndex k ↔
        d ∈ indexGet (buildIndexes env c).workspaceIndex k) ∧
      (d ∈ indexGet (buildIndexes env (buildIndexes env c)).folderIndex k ↔
        d ∈ indexGet (buildIndexes env c).folderIndex k) ∧
      (d ∈ indexGet (buildIndexes env (buildIndexes env c)).tokenIndex k ↔
        d ∈ indexGet (buildIndexes env c).tokenIndex k)) ∧
    (∀ (mdb : List (String × Metadata))
        (docs1 docs2 : List (String × EnrichedDocument)),
      docs1.Perm docs2 → ∀ (k : String) (kd : Int) (d : String),
      (d ∈ indexGet (buildIndexesAux env mdb docs1 emptyIndexes).attendeeIndex k ↔
        d ∈ indexGet (buildIndexesAux env mdb docs2 emptyIndexes).attendeeIndex k) ∧
      (d ∈ indexGet (buildIndexesAux env mdb docs1 emptyIndexes).dateIndex kd ↔
        d ∈ indexGet (buildIndexesAux env mdb docs2 emptyIndexes).dateIndex kd) ∧
      (d ∈ indexGet (buildIndexesAux env mdb docs1 emptyIndexes).workspaceIndex k ↔
        d ∈ indexGet (buildIndexesAux env mdb docs2 emptyIndexes).workspaceIndex k) ∧
      (d ∈ indexGet (buildIndexesAux env mdb docs1 emptyIndexes).folderIndex k ↔
        d ∈ indexGet (buildIndexesAux env mdb docs2 emptyIndexes).folderIndex k) ∧
      (d ∈ indexGet (buildIndexesAux env mdb docs1 emptyIndexes).tokenIndex k ↔
        d ∈ indexGet (buildIndexesAux env mdb docs2 emptyIndexes).tokenIndex k)) := by
  constructor
  · intro c k kd d
    have e1 : (buildIndexes env c).metadataById = c.metadataById := rfl
    have e2 : (buildIndexes env c).documentsById = c.documentsById := rfl
    refine ⟨?_, ?_, ?_, ?_, ?_⟩
    · rw [mem_buildIndexes_attendee env (buildIndexes env c) d k,
        mem_buildIndexes_attendee env c d k, e1, e2]
      tauto
    · rw [mem_buildIndexes_date env (buildIndexes env c) d kd,
        mem_buildIndexes_date env c d kd, e1, e2]
      tauto
    · rw [mem_buildIndexes_workspace env (buildIndexes env c) d k,
        mem_buildIndexes_workspace env c d k, e1, e2]
      tauto
    · rw [mem_buildIndexes_folder env (buildIndexes env c) d k,
        mem_buildIndexes_folder env c d k, e1, e2]
      tauto
    · rw [mem_buildIndexes_token env (buildIndexes env c) d k,
        mem_buildIndexes_token env c d k, e1, e2]
      tauto
  · intro mdb docs1 docs2 hperm k kd d
    have hmem : ∀ p : String × EnrichedDocument, p ∈ docs1 ↔ p ∈ docs2 :=
      fun p => hperm.mem_iff
    refine ⟨?_, ?_, ?_, ?_, ?_⟩
    · rw [mem_buildAux_attendee env mdb docs1 d k emptyIndexes,
        mem_buildAux_attendee env mdb docs2 d k emptyIndexes]
      simp [hmem, emptyIndexes, indexGet]
    · rw [mem_buildAux_date env mdb docs1 d kd emptyIndexes,
        mem_buildAux_date env mdb docs2 d kd emptyIndexes]
      simp [hmem, emptyIndexes, indexGet]
    · rw [mem_buildAux_workspace env mdb docs1 d k emptyIndexes,
        mem_buildAux_workspace env mdb docs2 d k emptyIndexes]
      simp [hmem, emptyIndexes, indexGet]
    · rw [mem_buildAux_folder env mdb docs1 d k emptyIndexes,
        mem_buildAux_folder env mdb docs2 d k emptyIndexes]
      simp [hmem, emptyIndexes, indexGet]
    · rw [mem_buildAux_token env mdb docs1 d k emptyIndexes,
        mem_buildAux_token env mdb docs2 d k emptyIndexes]
      simp [hmem, emptyIndexes, indexGet]

/-- Witness for C8 at a concrete two-document permutation. -/
theorem buildIndexes_orderIndependent_witness :
    ([("d1", doc1), ("d2", doc2)] : List (String × EnrichedDocument)).Perm
      [("d2", doc2), ("d1", doc1)] ∧
    (∀ (k : String) (kd : Int) (d : String),
      (d ∈ indexGet (buildIndexesAux testEnv [("d1", md1), ("d2", md2)]
          [("d1", doc1), ("d2", doc2)] emptyIndexes).attendeeIndex k ↔
        d ∈ indexGet (buildIndexesAux testEnv [("d1", md1), ("d2", md2)]
          [("d2", doc2), ("d1", doc1)] emptyIndexes).attendeeIndex k) ∧
      (d ∈ indexGet (buildIndexesAux testEnv [("d1", md1), ("d2", md2)]
          [("d1", doc1), ("d2", doc2)] emptyIndexes).dateIndex kd ↔
        d ∈ indexGet (buildIndexesAux testEnv [("d1", md1), ("d2", md2)]
          [("d2", doc2), ("d1", doc1)] emptyIndexes).dateIndex kd) ∧
      (d ∈ indexGet (buildIndexesAux testEnv [("d1", md1), ("d2", md2)]
          [("d1", doc1), ("d2", doc2)] emptyIndexes).workspaceIndex k ↔
        d ∈ indexGet (buildIndexesAux testEnv [("d1", md1), ("d2", md2)]
          [("d2", doc2), ("d1", doc1)] emptyIndexes).workspaceIndex k) ∧
      (d ∈ indexGet (buildIndexesAux testEnv [("d1", md1), ("d2", md2)]
          [("d1", doc1), ("d2", doc2)] emptyIndexes).folderIndex k ↔
        d ∈ indexGet (buildIndexesAux testEnv [("d1", md1), ("d2", md2)]
          [("d2", doc2), ("d1", doc1)] emptyIndexes).folderIndex k) ∧
      (d ∈ indexGet (buildIndexesAux testEnv [("d1", md1), ("d2", md2)]
          [("d1", doc1), ("d2", doc2)] emptyIndexes).tokenIndex k ↔
        d ∈ indexGet (buildIndexesAux testEnv [("d1", md1), ("d2", md2)]
          [("d2", doc2), ("d1", doc1)] emptyIndexes).tokenIndex k)) :=
  ⟨List.Perm.swap ("d2", doc2) ("d1", doc1) [],
    fun k kd d => (buildIndexes_idempotent_orderIndependent testEnv).2
      [("d1", md1), ("d2", md2)] [("d1", doc1), ("d2", doc2)]
      [("d2", doc2), ("d1", doc1)]
      (List.Perm.swap ("d2", doc2) ("d1", doc1) []) k kd d⟩

/-- C9: in the cache produced by initialization, and after any refresh of
it, every document id stored in any of the five indexes belongs to the
loaded document-id universe, and a document whose metadata yields no
parseable meeting or creation instant appears under no date-index key. -/
theorem initializeCache_index_invariants (env : JsEnv) (ci : CacheFileInput)
    (dir : Option (List DirEnt)) (c : DocumentCache)
    (h : initializeCache env ci dir = .ok c) :
    ((∀ k d, d ∈ indexGet c.attendeeIndex k → d ∈ getAllDocumentIds c) ∧
     (∀ kd d, d ∈ indexGet c.dateIndex kd → d ∈ getAllDocumentIds c) ∧
     (∀ k d, d ∈ indexGet c.workspaceIndex k → d ∈ getAllDocumentIds c) ∧
     (∀ k d, d ∈ indexGet c.folderIndex k → d ∈ getAllDocumentIds c) ∧
     (∀ k d, d ∈ indexGet c.tokenIndex k → d ∈ getAllDocumentIds c) ∧
     (∀ docId md, mapGet c.metadataById docId = some md → dateKey env md = none →
       ∀ kd, docId ∉ indexGet c.dateIndex kd)) ∧
    (∀ input : CacheFileInput,
     (∀ k d, d ∈ indexGet (refreshCache c input).attendeeIndex k →
        d ∈ getAllDocumentIds (refreshCache c input)) ∧
     (∀ kd d, d ∈ indexGet (refreshCache c input).dateIndex kd →
        d ∈ getAllDocumentIds (refreshCache c input)) ∧
     (∀ k d, d ∈ indexGet (refreshCache c input).workspaceIndex k →
        d ∈ getAllDocumentIds (refreshCache c input)) ∧
     (∀ k d, d ∈ indexGet (refreshCache c input).folderIndex k →
        d ∈ getAllDocumentIds (refreshCache c input)) ∧
     (∀ k d, d ∈ indexGet (refreshCache c input).tokenIndex k →
        d ∈ getAllDocumentIds (refreshCache c input)) ∧
     (∀ docId md, mapGet (refreshCache c input).metadataById docId = some md →
        dateKey env md = none →
        ∀ kd, docId ∉ indexGet (refreshCache c input).dateIndex kd)) := by
  cases dir with
  | none => simp [initializeCache, loadMetadata] at h
  | some entries =>
      simp only [initializeCache, loadMetadata, Except.ok.injEq] at h
      subst h
      generalize (loadMetaAux (parseCacheFile ci) entries ([], [], [])).2.1 = docs
      generalize (loadMetaAux (parseCacheFile ci) entries ([], [], [])).1 = mdb
      have h1 : ∀ k d, d ∈ indexGet (buildIndexes env
          { documentsById := docs, metadataById := mdb, attendeeIndex := [],
            dateIndex := [], workspaceIndex := [], folderIndex := [],
            tokenIndex := [], granolaCache := parseCacheFile ci }).attendeeIndex k →
          d ∈ docs.map Prod.fst := by
        intro k d hd
        rcases (mem_buildIndexes_attendee env _ d k).mp hd with hin | ⟨p, hp, hdp, -⟩
        · simp [indexGet] at hin
        · exact List.mem_map.mpr ⟨p, hp, hdp.symm⟩
      have h2 : ∀ (kd : Int) d, d ∈ indexGet (buildIndexes env
          { documentsById := docs, metadataById := mdb, attendeeIndex := [],
            dateIndex := [], workspaceIndex := [], folderIndex := [],
            tokenIndex := [], granolaCache := parseCacheFile ci }).dateIndex kd →
          d ∈ docs.map Prod.fst := by
        intro kd d hd
        rcases (mem_buildIndexes_date env _ d kd).mp hd with hin | ⟨p, hp, hdp, -⟩
        · simp [indexGet] at hin
        · exact List.mem_map.mpr ⟨p, hp, hdp.symm⟩
      have h3 : ∀ k d, d ∈ indexGet (buildIndexes env
          { documentsById := docs, metadataById := mdb, attendeeIndex := [],
            dateIndex := [], workspaceIndex := [], folderIndex := [],
            tokenIndex := [], granolaCache := parseCacheFile ci }).workspaceIndex k →
          d ∈ docs.map Prod.fst := by
        intro k d hd
        rcases (mem_buildIndexes_workspace env _ d k).mp hd with hin | ⟨p, hp, hdp, -⟩
        · simp [indexGet] at hin
        · exact List.mem_map.mpr ⟨p, hp, hdp.symm⟩
      have h4 : ∀ k d, d ∈ indexGet (buildIndexes env
          { documentsById := docs, metadataById := mdb, attendeeIndex := [],
            dateIndex := [], workspaceIndex := [], folderIndex := [],
            tokenIndex := [], granolaCache := parseCacheFile ci }).folderIndex k →
          d ∈ docs.map Prod.fst := by
        intro k d hd
        rcases (mem_buildIndexes_folder env _ d k).mp hd with hin | ⟨p, hp, hdp, -⟩
        · simp [indexGet] at hin
        · exact List.mem_map.mpr ⟨p, hp, hdp.symm⟩
      have h5 : ∀ k d, d ∈ indexGet (buildIndexes env
          { documentsById := docs, metadataById := mdb, attendeeIndex := [],
            dateIndex := [], workspaceIndex := [], folderIndex := [],
            tokenIndex := [], granolaCache := parseCacheFile ci }).tokenIndex k →
          d ∈ docs.map Prod.fst := by
        intro k d hd
        rcases (mem_buildIndexes_token env _ d k).mp hd with hin | ⟨p, hp, hdp, -⟩
        · simp [indexGet] at hin
        · exact List.mem_map.mpr ⟨p, hp, hdp.symm⟩
      have h6 : ∀ docId md, mapGet mdb docId = some md → dateKey env md = none →
          ∀ (kd : Int), docId ∉ indexGet (buildIndexes env
          { documentsById := docs, metadataById := mdb, attendeeIndex := [],
            dateIndex := [], workspaceIndex := [], folderIndex := [],
            tokenIndex := [], granolaCache := parseCacheFile ci }).dateIndex kd := by
        intro docId md hmd hnone kd hd
        rcases (mem_buildIndexes_date env _ docId kd).mp hd with
          hin | ⟨p, hp, hdp, md2, hmd2, hk2⟩
        · simp [indexGet] at hin
        · rw [← hdp] at hmd2
          rw [hmd2] at hmd
          have hmmd : md2 = md := Option.some.inj hmd
          rw [hmmd] at hk2
          simp [docKeysDate, hnone] at hk2
      refine ⟨⟨h1, h2, h3, h4, h5, h6⟩, ?_⟩
      intro input
      have hkeys : getAllDocumentIds (refreshCache (buildIndexes env
          { documentsById := docs, metadataById := mdb, attendeeIndex := [],
            dateIndex := [], workspaceIndex := [], folderIndex := [],
            tokenIndex := [], granolaCache := parseCacheFile ci }) input) =
          docs.map Prod.fst := map_fst_refreshMap _ _
      refine ⟨?_, ?_, ?_, ?_, ?_, ?_⟩
      · intro k d hd
        exact refresh_attendee_subset _ input k d hd
      · intro kd d hd
        rw [hkeys]
        exact h2 kd d hd
      · intro k d hd
        rw [hkeys]
        exact h3 k d hd
      · intro k d hd
        rw [hkeys]
        exact h4 k d hd
      · intro k d hd
        rw [hkeys]
        exact h5 k d hd
      · intro docId md hmd hnone kd hd
        exact h6 docId md hmd hnone kd hd

/-- Witness for C9 at the concrete initialization over `dir1`. -/
theorem initializeCache_index_invariants_witness :
    initializeCache testEnv .absent (some dir1) = .ok c1cache ∧
    (∀ kd d, d ∈ indexGet c1cache.dateIndex kd → d ∈ getAllDocumentIds c1cache) :=
  ⟨rfl, (initializeCache_index_invariants testEnv .absent (some dir1) c1cache
    rfl).1.2.1⟩

end Granola


